import Mathlib

/-!
Verification of the xivdyetools-universalis-proxy worker.

This file gives a shallow embedding, in Lean 4, of the parts of the
TypeScript source that the verified properties are about:

* `normalizeItemIds` (src/index.ts) — cache-key normalization;
* `checkRateLimit` / `cleanup` (src/services/rate-limiter.ts) — the
  sliding-window rate limiter with its module-level ledger map;
* `getFromCacheApi` / `getFromKv` / `storeToCacheApi` / `storeToKv` /
  `storeToAll` (src/services/cache-service.ts) and `cachedFetch`
  (src/services/cached-fetch.ts) — the dual-tier SWR cache;
* `coalesce` (src/services/request-coalescer.ts) — the single-flight
  request coalescer, embedded as an explicit event model of the
  JavaScript event loop (synchronous regions are atomic; producer
  settlement and timer firings are separate events);
* the Hono application of src/index.ts — the CORS middleware, the
  routed handlers, and the global error handler, with the framework's
  dispatch semantics (errors thrown below a middleware are caught and
  turned into a response by `app.onError`, after which the code
  following `await next()` in the middleware still runs) made explicit.

JavaScript strings are modelled as `List Char`; JavaScript numbers are
modelled exactly, with `Int` for millisecond timestamps and `ℚ` where the
source divides by 1000.  `Number(s)` is modelled on the decimal-natural
fragment (a string of decimal digits; the empty string evaluates to 0 as
in JavaScript; anything else is treated as NaN).  `Array.prototype.sort`
with the numeric comparator `(a, b) => a - b` is modelled by insertion
sort: on equal keys any comparison sort agrees elementwise, so the choice
is immaterial for lists of numbers.
-/

/-- JavaScript strings, modelled as lists of characters. -/
abbrev Str := List Char

/-- Model of `s.split(',')` (JavaScript `String.prototype.split` with a
single-character separator): the empty string yields `[""]`, and every
comma starts a new piece. -/
def splitOnComma : Str → List Str
  | [] => [[]]
  | c :: rest =>
    match splitOnComma rest with
    | [] => [[c]]
    | p :: ps => if c = ',' then [] :: p :: ps else (c :: p) :: ps

/-- Model of `parts.join(',')` (JavaScript `Array.prototype.join`). -/
def joinComma : List Str → Str
  | [] => []
  | [p] => p
  | p :: ps => p ++ ',' :: joinComma ps

/-- Decimal digit test, `'0' ≤ c ≤ '9'`. -/
def isDigitCh (c : Char) : Bool :=
  '0' ≤ c && c ≤ '9'

/-- Numeric value of a digit character. -/
def digitVal (c : Char) : ℕ :=
  c.toNat - '0'.toNat

/-- Value of a string of decimal digits, most significant first. -/
def decToNat (s : Str) : ℕ :=
  s.foldl (fun acc c => 10 * acc + digitVal c) 0

/-- The digit character for a value below ten. -/
def digitChar (d : ℕ) : Char :=
  Char.ofNat (d + '0'.toNat)

/-- Fuel-indexed decimal rendering of a natural number (the fuel only
serves termination; `toDec` supplies enough of it). -/
def toDecFuel : ℕ → ℕ → Str
  | 0, _ => []
  | fuel + 1, n =>
    if n < 10 then [digitChar n]
    else toDecFuel fuel (n / 10) ++ [digitChar (n % 10)]

/-- Model of JavaScript `String(n)` for a natural number: its decimal
representation without leading zeros (`String(0) = "0"`). -/
def toDec (n : ℕ) : Str :=
  toDecFuel (n + 1) n

/-- Model of JavaScript `Number(s)` on the decimal-natural fragment:
a (possibly empty) string of decimal digits evaluates to its value
(`Number('') = 0` as in JavaScript); any other string is NaN, modelled
as `none`. -/
def jsNumber (s : Str) : Option ℕ :=
  if s.all isDigitCh then some (decToNat s) else none

/-- Model of `array.sort((a, b) => a - b)` on numbers: sort ascending. -/
def sortAsc (l : List ℕ) : List ℕ :=
  List.insertionSort (· ≤ ·) l

/-- Embedding of `normalizeItemIds` (src/index.ts):
`itemIds.split(',').map(Number).filter(n => !isNaN(n) && n > 0)
.sort((a, b) => a - b).join(',')`.  The `map(Number)` and the
`filter` are fused into one `filterMap` with `keepPositive`: a NaN
piece is dropped, a numeric piece is kept exactly when its value is
positive. -/
def keepPositive (piece : Str) : Option ℕ :=
  match jsNumber piece with
  | some n => if 0 < n then some n else none
  | none => none

def normalizeItemIds (s : Str) : Str :=
  joinComma ((sortAsc ((splitOnComma s).filterMap keepPositive)).map toDec)

/-! ## Rate limiter (src/services/rate-limiter.ts) -/

/-- Rate limit configuration (`RateLimitConfig`). -/
structure RateLimitConfig where
  maxRequests : Int
  windowSeconds : Int
deriving Repr, DecidableEq

/-- Rate limit check result (`RateLimitResult`). -/
structure RateLimitResult where
  allowed : Bool
  remaining : Int
  resetInSeconds : Int
deriving Repr, DecidableEq

/-- The module-level state of the limiter: the `ipRequestLog` map
(identifier to its timestamps, in insertion order, as a JavaScript `Map`)
and the module-level `lastCleanup` timestamp.  Timestamps are epoch
milliseconds. -/
structure RateLimiterState where
  ipRequestLog : List (String × List Int)
  lastCleanup : Int
deriving Repr, DecidableEq

/-- The constant `CLEANUP_INTERVAL_MS = 60 * 1000`. -/
def CLEANUP_INTERVAL_MS : Int := 60 * 1000

/-- Lookup in the ledger map (JavaScript `Map.prototype.get`). -/
def lookupLedger : List (String × List Int) → String → Option (List Int)
  | [], _ => none
  | e :: rest, id => if e.1 = id then some e.2 else lookupLedger rest id

/-- Update-or-insert in the ledger map (JavaScript `Map.prototype.set`:
an existing key keeps its position, a new key is appended). -/
def updateLedger : List (String × List Int) → String → List Int → List (String × List Int)
  | [], id, ts => [(id, ts)]
  | e :: rest, id, ts => if e.1 = id then (id, ts) :: rest else e :: updateLedger rest id ts

/-- Embedding of `cleanup(windowSeconds)`: drop, from every ledger, the
timestamps at or below `now − windowMs`, delete ledgers that become
empty, and record `now` as the last cleanup time. -/
def cleanup (windowSeconds : Int) (now : Int) (st : RateLimiterState) : RateLimiterState :=
  let windowMs := windowSeconds * 1000
  let cutoff := now - windowMs
  { ipRequestLog :=
      ((st.ipRequestLog.map fun e => (e.1, e.2.filter fun ts => decide (cutoff < ts))).filter
        fun e => !e.2.isEmpty)
    lastCleanup := now }

/-- Embedding of `checkRateLimit(identifier, config)` at time `now` (the
source reads `Date.now()`): run the piggybacked cleanup when it is due,
fetch or create the identifier's ledger, keep only in-window timestamps,
then deny (ledger full) or admit and append `now`.  The denial's
`resetInSeconds` is `Math.max(1, Math.ceil((oldest + windowMs - now) /
1000))`; `Math.ceil(x / 1000)` for integer `x` is `-((-x) / 1000)` in
floor division, which is how it is written here.  (On an empty full
ledger, only possible when `maxRequests ≤ 0`, the source would compute
NaN from `timestamps[0]`; the embedding uses `headI`, and the theorems
below assume `1 ≤ maxRequests` so that the case never arises.) -/
def checkRateLimit (identifier : String) (config : RateLimitConfig) (now : Int)
    (st : RateLimiterState) : RateLimitResult × RateLimiterState :=
  let windowMs := config.windowSeconds * 1000
  let cutoff := now - windowMs
  let st1 := if CLEANUP_INTERVAL_MS < now - st.lastCleanup
    then cleanup config.windowSeconds now st else st
  let log := (lookupLedger st1.ipRequestLog identifier).getD []
  let filtered := log.filter fun ts => decide (cutoff < ts)
  if config.maxRequests ≤ (filtered.length : Int) then
    let oldestTimestamp := filtered.headI
    let resetInSeconds := -((-(oldestTimestamp + windowMs - now)) / 1000)
    (⟨false, 0, max 1 resetInSeconds⟩,
     { st1 with ipRequestLog := updateLedger st1.ipRequestLog identifier filtered })
  else
    let updated := filtered ++ [now]
    (⟨true, config.maxRequests - (updated.length : Int), config.windowSeconds⟩,
     { st1 with ipRequestLog := updateLedger st1.ipRequestLog identifier updated })

/-- Model of JavaScript `String(n)` for an integer. -/
def intToStr (n : Int) : Str :=
  if n < 0 then '-' :: toDec n.natAbs else toDec n.natAbs

/-- Embedding of `getRateLimitHeaders(result, maxRequests)` at time
`now`; `Math.floor(Date.now() / 1000)` is floor division by 1000. -/
def getRateLimitHeaders (result : RateLimitResult) (maxRequests : Int) (now : Int) :
    List (Str × Str) :=
  [ ("X-RateLimit-Limit".data, intToStr maxRequests),
    ("X-RateLimit-Remaining".data, intToStr result.remaining),
    ("X-RateLimit-Reset".data, intToStr (Int.fdiv now 1000 + result.resetInSeconds)) ]

/-- A sequence of `checkRateLimit` calls, each a triple of identifier,
config and time, folded over the limiter state. -/
def runCalls : List (String × RateLimitConfig × Int) → RateLimiterState → RateLimiterState
  | [], st => st
  | (id, cfg, now) :: rest, st => runCalls rest (checkRateLimit id cfg now st).2

/-! ## Dual-tier cache (src/services/cache-service.ts, cached-fetch.ts) -/

/-- Cached payloads.  `JSON.stringify` after `JSON.parse` of a stored
value reproduces the stored text, so payloads are carried opaquely. -/
abbrev Payload := String

/-- Per-endpoint cache policy (`CacheConfig` in src/types/cache.ts):
`cacheTtl` and `kvTtl` in seconds, `swrWindow` in seconds.  The unused
string field naming the key namespace is omitted. -/
structure CacheConfig where
  cacheTtl : Int
  kvTtl : Int
  swrWindow : Int
deriving Repr, DecidableEq

/-- Metadata stored with a cached value (`CacheMetadata`): `cachedAt` in
epoch milliseconds, `ttl` and `swrWindow` in seconds.  The Cache API
tier stores the same triple in the `X-Cached-At` / `X-Cache-TTL` /
`X-SWR-Window` response headers. -/
structure CacheMetadata where
  cachedAt : Int
  ttl : Int
  swrWindow : Int
deriving Repr, DecidableEq

/-- A stored cache entry: payload plus metadata.  Both tiers store
entries of this shape (the Cache API tier as a `Response` with the
metadata headers, the KV tier as value plus metadata). -/
structure CacheEntry where
  value : Payload
  metadata : CacheMetadata
deriving Repr, DecidableEq

/-- A cache tier's store, keyed by the raw cache key (the Cache API
tier's synthetic URL is injective in the key). -/
abbrev CacheStore := List (String × CacheEntry)

/-- Lookup in a tier (Cache API `cache.match` / KV `getWithMetadata`). -/
def lookupStore : CacheStore → String → Option CacheEntry
  | [], _ => none
  | e :: rest, k => if e.1 = k then some e.2 else lookupStore rest k

/-- Store into a tier (`cache.put` / `kv.put`): replace or append. -/
def updateStore : CacheStore → String → CacheEntry → CacheStore
  | [], k, v => [(k, v)]
  | e :: rest, k, v => if e.1 = k then (k, v) :: rest else e :: updateStore rest k v

/-- Delete from a tier (`cache.delete` / `kv.delete`). -/
def eraseStore (store : CacheStore) (k : String) : CacheStore :=
  store.filter fun e => decide (e.1 ≠ k)

/-- Outcome of a tier lookup: absent, expired-and-removed (the source
returns `null` and enqueues the deletion on `ctx.waitUntil`), or a hit
carrying the payload and the staleness flag. -/
inductive TierLookup
  | absent
  | expiredRemoved
  | hit (value : Payload) (isStale : Bool)
deriving Repr, DecidableEq

/-- The staleness classification shared by `getFromCacheApi` (lines
86–105) and `getFromKv` (lines 119–136): with `age = (now − cachedAt) /
1000` seconds, `isExpired = age > ttl` and `isWithinSwr = age ≤ ttl +
swrWindow`; an expired entry outside the SWR window is deleted and the
lookup misses, otherwise the entry is returned with `isStale =
isExpired`.  The two comparisons are written multiplied through by
1000, which is exactly equivalent (1000 > 0) and keeps the model in
`Int`; the bridge to the age-in-seconds form is proved where the
classification is characterized. -/
def classifyEntry (md : CacheMetadata) (now : Int) : Bool × Bool :=
  let ageMs := now - md.cachedAt
  (decide (md.ttl * 1000 < ageMs), decide (ageMs ≤ (md.ttl + md.swrWindow) * 1000))

/-- Embedding of `CacheService.getFromCacheApi(key)` at time `now` over
the edge tier's store: returns the lookup outcome and the store after
the (enqueued) deletion, if any. -/
def getFromCacheApi (edge : CacheStore) (now : Int) (key : String) :
    TierLookup × CacheStore :=
  match lookupStore edge key with
  | none => (.absent, edge)
  | some e =>
    let c := classifyEntry e.metadata now
    if c.1 && !c.2 then (.expiredRemoved, eraseStore edge key)
    else (.hit e.value c.1, edge)

/-- Embedding of `CacheService.getFromKv(key)` at time `now` over the
KV tier's store: same classification as the edge tier. -/
def getFromKv (kv : CacheStore) (now : Int) (key : String) :
    TierLookup × CacheStore :=
  match lookupStore kv key with
  | none => (.absent, kv)
  | some e =>
    let c := classifyEntry e.metadata now
    if c.1 && !c.2 then (.expiredRemoved, eraseStore kv key)
    else (.hit e.value c.1, kv)

/-- Embedding of `CacheService.storeToCacheApi(key, data, config)`: the
edge tier receives the payload with headers `X-Cached-At = now`,
`X-Cache-TTL = config.cacheTtl`, `X-SWR-Window = config.swrWindow`. -/
def storeToCacheApi (edge : CacheStore) (now : Int) (key : String) (data : Payload)
    (config : CacheConfig) : CacheStore :=
  updateStore edge key ⟨data, ⟨now, config.cacheTtl, config.swrWindow⟩⟩

/-- Embedding of `CacheService.storeToKv(key, data, config)`: the KV
tier receives the payload with metadata `cachedAt = now`, `ttl =
config.kvTtl`, `swrWindow = config.swrWindow`. -/
def storeToKv (kv : CacheStore) (now : Int) (key : String) (data : Payload)
    (config : CacheConfig) : CacheStore :=
  updateStore kv key ⟨data, ⟨now, config.kvTtl, config.swrWindow⟩⟩

/-- The two tiers of the dual-layer cache. -/
structure CacheWorld where
  edge : CacheStore
  kv : CacheStore
deriving Repr, DecidableEq

/-- Embedding of `CacheService.storeToAll(key, data, config)`: write
both tiers (enqueued on `ctx.waitUntil`; the model applies the enqueued
writes to the stores). -/
def storeToAll (w : CacheWorld) (now : Int) (key : String) (data : Payload)
    (config : CacheConfig) : CacheWorld :=
  { edge := storeToCacheApi w.edge now key data config
    kv := storeToKv w.kv now key data config }

/-- Where a `cachedFetch` answer came from (`CacheSource`). -/
inductive CacheSource
  | cacheApi
  | kv
  | upstream
deriving Repr, DecidableEq

/-- Result of `cachedFetch` (`CacheResult`). -/
structure CacheResult where
  data : Payload
  source : CacheSource
  isStale : Bool
deriving Repr, DecidableEq

/-- Upstream failure observed by `cachedFetch`'s producer: a non-2xx
upstream status (thrown as `UpstreamError`) or a transport error. -/
inductive UpstreamFailure
  | upstreamStatus (status : Nat)
  | transport
deriving Repr, DecidableEq

/-- Embedding of `cachedFetch` (src/services/cached-fetch.ts): probe the
edge tier, then the KV tier, then go upstream (through the coalescer,
whose single-flight behaviour is modelled separately; `upstream` is the
outcome its producer would deliver).  Returns the result or the thrown
failure, the two stores after the call's enqueued writes and deletions,
and whether a background revalidation was enqueued. -/
def cachedFetch (w : CacheWorld) (now : Int) (key : String) (config : CacheConfig)
    (upstream : Except UpstreamFailure Payload) :
    Except UpstreamFailure CacheResult × CacheWorld × Bool :=
  match getFromCacheApi w.edge now key with
  | (.hit v stale, edge1) =>
    (.ok ⟨v, .cacheApi, stale⟩, ⟨edge1, w.kv⟩, stale)
  | (_, edge1) =>
    match getFromKv w.kv now key with
    | (.hit v stale, kv1) =>
      let w2 := storeToAll ⟨edge1, kv1⟩ now key v config
      (.ok ⟨v, .kv, stale⟩, w2, stale)
    | (_, kv1) =>
      match upstream with
      | .ok data =>
        let w2 := storeToAll ⟨edge1, kv1⟩ now key data config
        (.ok ⟨data, .upstream, false⟩, w2, false)
      | .error e => (.error e, ⟨edge1, kv1⟩, false)

/-! ## Request coalescer (src/services/request-coalescer.ts)

The coalescer is embedded as an event model of the single-threaded
JavaScript runtime.  A call to `coalesce` is one synchronous region (the
body contains no `await` between the membership check and the map
insert, so no other task can interleave with it); the settlement of a
producer's promise and the firing of a `setTimeout` are separate events.
Each producer invocation gets a fresh identifier `pid`; `producerLog`
records every invocation in order, so single-flight claims are claims
about this log. -/

/-- How a producer's promise settled. -/
inductive Outcome
  | ok
  | err
deriving Repr, DecidableEq

/-- A scheduled `setTimeout` callback: the delayed deletion that runs
100 ms after the producer settles (lines 64–69), or the safety deletion
scheduled at call time for 30 s later (lines 76–85). -/
inductive TimerKind
  | lingerDelete (key : String)
  | safetyDelete (key : String)
deriving Repr, DecidableEq

/-- The primitive actions a `coalesce` call performs on shared state, in
source order, recorded as a trace of its synchronous region. -/
inductive CoalesceAction
  | mapDelete (key : String)
  | invokeProducer (pid : Nat) (key : String)
  | mapSet (key : String) (pid : Nat)
  | schedule (fireAt : Int) (timer : TimerKind)
deriving Repr, DecidableEq

/-- What a `coalesce` call returns to its caller. -/
inductive CallResult
  | attachedValue (pid : Nat)
  | attachedError (pid : Nat)
  | attachedPending (pid : Nat)
  | startedProducer (pid : Nat)
deriving Repr, DecidableEq

/-- Holds (as `true`) when the call attached to an existing in-flight entry rather
than invoking the producer. -/
def CallResult.isAttached : CallResult → Bool
  | .attachedValue _ => true
  | .attachedError _ => true
  | .attachedPending _ => true
  | .startedProducer _ => false

/-- The coalescer's shared state: the module-level `inFlightRequests`
map (key to the pid of its promise), which producers have settled and
how, the callers currently awaiting a pending promise, the log of every
producer invocation, the scheduled timers, and the next fresh pid. -/
structure CoalescerState where
  inFlight : List (String × Nat)
  settledAs : List (Nat × Outcome)
  waiting : List (String × Nat)
  producerLog : List (Nat × String)
  timers : List (Int × TimerKind)
  nextPid : Nat
deriving Repr, DecidableEq

/-- The state at isolate start: everything empty. -/
def initCoalescer : CoalescerState :=
  ⟨[], [], [], [], [], 0⟩

/-- Lookup in the `inFlightRequests` map. -/
def lookupKey : List (String × Nat) → String → Option Nat
  | [], _ => none
  | e :: rest, k => if e.1 = k then some e.2 else lookupKey rest k

/-- Model of `inFlightRequests.set(key, promise)`. -/
def updateKey : List (String × Nat) → String → Nat → List (String × Nat)
  | [], k, v => [(k, v)]
  | e :: rest, k, v => if e.1 = k then (k, v) :: rest else e :: updateKey rest k v

/-- Model of `inFlightRequests.delete(key)`. -/
def eraseKey (m : List (String × Nat)) (k : String) : List (String × Nat) :=
  m.filter fun e => decide (e.1 ≠ k)

/-- Outcome lookup for a settled producer. -/
def lookupPid : List (Nat × Outcome) → Nat → Option Outcome
  | [], _ => none
  | e :: rest, p => if e.1 = p then some e.2 else lookupPid rest p

/-- The constant `MAX_IN_FLIGHT_TIME_MS` (line 21 of the source). -/
def MAX_IN_FLIGHT_TIME_MS : Int := 30000

/-- Embedding of `RequestCoalescer.coalesce(key, fetchFn)` called at
time `now`, as one synchronous region.

With an existing entry (lines 46–55) the caller awaits the existing
promise: if it has already settled with a value the caller gets the
value; if it settled with an error the caller deletes the entry and
rethrows; if it is still pending the caller joins the waiters (the
error-path delete for such a waiter happens at settlement, see
`settleProducer`).  With no entry (lines 57–87) the producer is invoked
(`fetchFn()`, line 58), the promise is inserted (`set`, line 59) — in
that source order, which the returned trace records — and the safety
timer is scheduled `MAX_IN_FLIGHT_TIME_MS` ahead (lines 76–85).  The
post-settlement cleanup of lines 62–73 is registered on the promise and
appears in `settleProducer`. -/
def coalesce (st : CoalescerState) (now : Int) (key : String) :
    CoalescerState × CallResult × List CoalesceAction :=
  match lookupKey st.inFlight key with
  | some pid =>
    match lookupPid st.settledAs pid with
    | some .ok => (st, .attachedValue pid, [])
    | some .err =>
      ({ st with inFlight := eraseKey st.inFlight key }, .attachedError pid,
       [.mapDelete key])
    | none =>
      ({ st with waiting := st.waiting ++ [(key, pid)] }, .attachedPending pid, [])
  | none =>
    let pid := st.nextPid
    ({ st with
        inFlight := updateKey st.inFlight key pid
        producerLog := st.producerLog ++ [(pid, key)]
        timers := st.timers ++ [(now + MAX_IN_FLIGHT_TIME_MS, TimerKind.safetyDelete key)]
        nextPid := pid + 1 },
     .startedProducer pid,
     [.invokeProducer pid key, .mapSet key pid,
      .schedule (now + MAX_IN_FLIGHT_TIME_MS) (.safetyDelete key)])

/-- The producer `pid` created under `key` settles at time `now` with
outcome `out`.  The creator's `finally` handler (lines 64–69) schedules
the deletion timer 100 ms ahead — for success and failure alike.
Waiters attached while the promise was pending resume: on an error each
such waiter runs the catch of lines 50–54, deleting the entry and
rethrowing; on a value they just return it.  The creator itself
registered no catch around `return promise` (line 87). -/
def settleProducer (st : CoalescerState) (now : Int) (key : String) (pid : Nat)
    (out : Outcome) : CoalescerState :=
  let st1 := { st with
    settledAs := (pid, out) :: st.settledAs
    timers := st.timers ++ [(now + 100, TimerKind.lingerDelete key)] }
  let erredWaiter := out = Outcome.err ∧ (key, pid) ∈ st.waiting
  { st1 with
    inFlight := if erredWaiter then eraseKey st1.inFlight key else st1.inFlight
    waiting := st1.waiting.filter fun w => decide (w ≠ (key, pid)) }

/-- A scheduled timer fires: the post-settlement cleanup deletes the key
unconditionally (lines 66–68); the safety timer deletes the key when
still present (lines 78–81).  Both leave every other key untouched. -/
def fireTimer (st : CoalescerState) (t : TimerKind) : CoalescerState :=
  match t with
  | .lingerDelete k => { st with inFlight := eraseKey st.inFlight k }
  | .safetyDelete k => { st with inFlight := eraseKey st.inFlight k }

/-! ## The Hono application (src/index.ts)

The app is embedded at the granularity the CORS and rate-limit claims
need.  Routing is by structured path; response bodies are abstracted to
their JSON shape; `isValidDatacenterOrWorld` (config/datacenters.ts) is
a parameter, as are the per-endpoint `CACHE_CONFIGS` entries and the
outcome `cachedFetch` would deliver.  The framework semantics embedded
in `appFetch` is Hono's: an `Error` thrown below the CORS middleware is
caught by the dispatcher at the throwing handler's level and converted
into a response by `app.onError`, after which the middleware's code
after `await next()` still runs, so the `c.header(...)` calls apply to
that response too. -/

/-- Model of JavaScript `String.prototype.trim`. -/
def trimStr (s : Str) : Str :=
  ((s.dropWhile Char.isWhitespace).reverse.dropWhile Char.isWhitespace).reverse

/-- Model of `s.startsWith(pre)`: `startsWithL pre s`. -/
def startsWithL : Str → Str → Bool
  | [], _ => true
  | _ :: _, [] => false
  | p :: ps, c :: cs => p = c && startsWithL ps cs

/-- Leading run of decimal digits, `none` when there is none. -/
def parseLeadingDigits (s : Str) : Option ℕ :=
  match s.takeWhile isDigitCh with
  | [] => none
  | ds => some (decToNat ds)

/-- Model of `parseInt(s, 10)` on the integer fragment: optional sign
followed by digits after leading whitespace; `none` models NaN. -/
def jsParseInt (s : Str) : Option Int :=
  match s.dropWhile Char.isWhitespace with
  | '-' :: rest => (parseLeadingDigits rest).map fun n => -(n : Int)
  | '+' :: rest => (parseLeadingDigits rest).map fun n => (n : Int)
  | t => (parseLeadingDigits t).map fun n => (n : Int)

/-- Model of `parseInt(s, 10) || dflt`: NaN and 0 are falsy. -/
def parseEnvInt (s : Str) (dflt : Int) : Int :=
  match jsParseInt s with
  | none => dflt
  | some 0 => dflt
  | some n => n

/-- The worker environment bindings the embedded routes read. -/
structure AppEnv where
  ENVIRONMENT : Str
  ALLOWED_ORIGINS : Str
  RATE_LIMIT_REQUESTS : Str
  RATE_LIMIT_WINDOW_SECONDS : Str

/-- Request method, collapsed to what the app distinguishes. -/
inductive HttpMethod
  | GET
  | OPTIONS
deriving Repr, DecidableEq

/-- The app's routes, with the captured path parameters. -/
inductive RoutePath
  | root
  | health
  | aggregated (datacenter itemIds : Str)
  | dataCenters
  | worlds
  | unknown
deriving Repr, DecidableEq

/-- An incoming request: method, routed path, and the headers the app
reads.  `none` models an absent header. -/
structure AppRequest where
  method : HttpMethod
  path : RoutePath
  originHeader : Option Str
  cfConnectingIP : Option Str
  xForwardedFor : Option Str

/-- JSON response bodies, abstracted to their shape. -/
inductive BodyKind
  | identityBody
  | healthBody
  | dataBody (p : Payload)
  | rateLimitExceeded
  | invalidDatacenter
  | invalidItemIds
  | itemCountOutOfRange
  | invalidItemIdsDetected
  | upstreamRateLimited
  | upstreamErrorBody (status : Nat)
  | fetchFailed
  | dataCentersFailed
  | worldsFailed
  | notFoundBody
  | internalError
  | emptyBody
deriving Repr, DecidableEq

/-- An outgoing response. -/
structure HttpResponse where
  status : Nat
  headers : List (Str × Str)
  body : BodyKind

/-- First header with the given name, if any. -/
def lookupHeader : List (Str × Str) → Str → Option Str
  | [], _ => none
  | h :: rest, name => if h.1 = name then some h.2 else lookupHeader rest name

/-- Model of `c.header(name, value)`: set, replacing an existing header
of that name. -/
def setHeader (hs : List (Str × Str)) (name value : Str) : List (Str × Str) :=
  (name, value) :: hs.filter fun h => decide (h.1 ≠ name)

/-- The CORS middleware's origin computation (src/index.ts lines 33–44):
split `ALLOWED_ORIGINS` on commas and trim; in development an origin is
allowed when it starts with `http://localhost:` or `http://127.0.0.1:`,
otherwise when it is a member of the allow-list; a disallowed origin
falls back to the first allow-list entry. -/
def corsOrigin (env : AppEnv) (origin : Str) : Str :=
  let allowedOrigins := (splitOnComma env.ALLOWED_ORIGINS).map trimStr
  let isAllowed :=
    if env.ENVIRONMENT = "development".data then
      startsWithL "http://localhost:".data origin ||
        startsWithL "http://127.0.0.1:".data origin
    else allowedOrigins.contains origin
  if isAllowed then origin else allowedOrigins.headI

/-- Embedding of `buildCacheHeaders(source, isStale, config)`
(src/services/cached-fetch.ts lines 178–189). -/
def buildCacheHeaders (source : CacheSource) (isStale : Bool) (config : CacheConfig) :
    List (Str × Str) :=
  [ ("X-Cache".data, if source = CacheSource.upstream then "MISS".data else "HIT".data),
    ("X-Cache-Source".data,
      match source with
      | .cacheApi => "cache-api".data
      | .kv => "kv".data
      | .upstream => "upstream".data),
    ("X-Cache-Stale".data, if isStale then "true".data else "false".data),
    ("Cache-Control".data, "public, max-age=".data ++ intToStr config.cacheTtl) ]

/-- The client identifier of the aggregated route (line 116):
`CF-Connecting-IP`, else the first trimmed entry of `X-Forwarded-For`,
else `'unknown'`; empty strings are falsy and fall through. -/
def getClientIP (req : AppRequest) : Str :=
  let cf := req.cfConnectingIP.getD []
  if cf ≠ [] then cf
  else
    match req.xForwardedFor with
    | some xff =>
      let first := trimStr ((splitOnComma xff).headI)
      if first ≠ [] then first else "unknown".data
    | none => "unknown".data

/-- Embedding of the `GET /api/v2/aggregated/:datacenter/:itemIds`
handler (src/index.ts lines 112–224): rate-limit first, then validate
the datacenter against the whitelist, the item-id string against
`^[d,]+$` (digits and commas; written out as a character test
here), the id count (1 to 100) and each id's range (1 to 1,000,000),
then serve the `cachedFetch` outcome, mapping an upstream 429 to a local
429 with `Retry-After: 60` and other failures to their status or 502.
Returns the response, the identifiers passed to `checkRateLimit`, and
the limiter state after the call. -/
def aggregatedHandler (env : AppEnv) (req : AppRequest) (datacenter itemIds : Str)
    (now : Int) (rl : RateLimiterState) (validDc : Str → Bool) (config : CacheConfig)
    (outcome : Except UpstreamFailure CacheResult) :
    HttpResponse × List String × RateLimiterState :=
  let clientIP := getClientIP req
  let rateLimitConfig : RateLimitConfig :=
    ⟨parseEnvInt env.RATE_LIMIT_REQUESTS 60, parseEnvInt env.RATE_LIMIT_WINDOW_SECONDS 60⟩
  let rate := checkRateLimit (String.mk clientIP) rateLimitConfig now rl
  let callLog := [String.mk clientIP]
  if rate.1.allowed = false then
    (⟨429,
      getRateLimitHeaders rate.1 rateLimitConfig.maxRequests now ++
        [("Retry-After".data, intToStr rate.1.resetInSeconds)],
      .rateLimitExceeded⟩, callLog, rate.2)
  else if !validDc datacenter then
    (⟨400, [], .invalidDatacenter⟩, callLog, rate.2)
  else if !(!itemIds.isEmpty && itemIds.all fun c => isDigitCh c || c == ',') then
    (⟨400, [], .invalidItemIds⟩, callLog, rate.2)
  else
    let ids := (splitOnComma itemIds).map jsNumber
    if ids.length = 0 || decide (100 < ids.length) then
      (⟨400, [], .itemCountOutOfRange⟩, callLog, rate.2)
    else
      let invalidIds := ids.filter fun o =>
        match o with
        | none => true
        | some n => decide (n < 1) || decide (1000000 < n)
      if !invalidIds.isEmpty then
        (⟨400, [], .invalidItemIdsDetected⟩, callLog, rate.2)
      else
        match outcome with
        | .ok r =>
          (⟨200, buildCacheHeaders r.source r.isStale config, .dataBody r.data⟩,
           callLog, rate.2)
        | .error (.upstreamStatus 429) =>
          (⟨429, [("Retry-After".data, intToStr 60)], .upstreamRateLimited⟩,
           callLog, rate.2)
        | .error (.upstreamStatus s) =>
          (⟨s, [], .upstreamErrorBody s⟩, callLog, rate.2)
        | .error .transport =>
          (⟨502, [], .fetchFailed⟩, callLog, rate.2)

/-- Embedding of the `GET /api/v2/data-centers` handler (lines 234–260):
no rate limiting, no validation; serve the `cachedFetch` outcome,
mirroring an `UpstreamError` status and turning other failures into
502. -/
def dataCentersHandler (config : CacheConfig)
    (outcome : Except UpstreamFailure CacheResult) : HttpResponse :=
  match outcome with
  | .ok r => ⟨200, buildCacheHeaders r.source r.isStale config, .dataBody r.data⟩
  | .error (.upstreamStatus s) => ⟨s, [], .upstreamErrorBody s⟩
  | .error .transport => ⟨502, [], .dataCentersFailed⟩

/-- Embedding of the `GET /api/v2/worlds` handler (lines 270–296), the
same shape as the data-centers handler. -/
def worldsHandler (config : CacheConfig)
    (outcome : Except UpstreamFailure CacheResult) : HttpResponse :=
  match outcome with
  | .ok r => ⟨200, buildCacheHeaders r.source r.isStale config, .dataBody r.data⟩
  | .error (.upstreamStatus s) => ⟨s, [], .upstreamErrorBody s⟩
  | .error .transport => ⟨502, [], .worldsFailed⟩

/-- Everything one dispatch of the app depends on: the environment, the
request, the clock, the limiter state, the datacenter whitelist, the
per-route cache policies and `cachedFetch` outcomes, and whether the
routed handler throws an `Error` at runtime (`crash`), which Hono routes
to `app.onError`. -/
structure AppInput where
  env : AppEnv
  req : AppRequest
  now : Int
  rl : RateLimiterState
  validDc : Str → Bool
  aggregatedConfig : CacheConfig
  dataCentersConfig : CacheConfig
  worldsConfig : CacheConfig
  aggregatedOutcome : Except UpstreamFailure CacheResult
  dataCentersOutcome : Except UpstreamFailure CacheResult
  worldsOutcome : Except UpstreamFailure CacheResult
  crash : Bool

/-- The dispatch below the CORS middleware: the routed handler, the
`app.notFound` handler for unmatched paths, or — when the handler threw —
the `app.onError` response (`500 Internal Server Error`, lines 321–330).
Returns the response, the identifiers passed to `checkRateLimit`, and
the limiter state. -/
def innerDispatch (i : AppInput) : HttpResponse × List String × RateLimiterState :=
  if i.crash then (⟨500, [], .internalError⟩, [], i.rl)
  else
    match i.req.path with
    | .root => (⟨200, [], .identityBody⟩, [], i.rl)
    | .health => (⟨200, [], .healthBody⟩, [], i.rl)
    | .aggregated dc ids =>
      aggregatedHandler i.env i.req dc ids i.now i.rl i.validDc i.aggregatedConfig
        i.aggregatedOutcome
    | .dataCenters => (dataCentersHandler i.dataCentersConfig i.dataCentersOutcome, [], i.rl)
    | .worlds => (worldsHandler i.worldsConfig i.worldsOutcome, [], i.rl)
    | .unknown => (⟨404, [], .notFoundBody⟩, [], i.rl)

/-- Embedding of one request through the app (src/index.ts lines 32–65
around the rest): the CORS middleware computes `corsOrigin`, answers
`OPTIONS` directly with the 204 preflight, and otherwise runs the inner
dispatch — handler, not-found, or error handler — and then sets the
`Access-Control-Allow-Origin` and `Access-Control-Allow-Methods`
headers on whatever response came back. -/
def appFetch (i : AppInput) : HttpResponse × List String × RateLimiterState :=
  let origin := i.req.originHeader.getD []
  let co := corsOrigin i.env origin
  if i.req.method = HttpMethod.OPTIONS then
    (⟨204,
      [ ("Access-Control-Allow-Origin".data, co),
        ("Access-Control-Allow-Methods".data, "GET, OPTIONS".data),
        ("Access-Control-Allow-Headers".data, "Content-Type, Accept".data),
        ("Access-Control-Max-Age".data, "86400".data) ],
      .emptyBody⟩, [], i.rl)
  else
    let (r, callLog, rl1) := innerDispatch i
    (⟨r.status,
      setHeader (setHeader r.headers "Access-Control-Allow-Origin".data co)
        "Access-Control-Allow-Methods".data "GET, OPTIONS".data,
      r.body⟩, callLog, rl1)

/-! ## Helper lemmas: decimal rendering and split/join -/

theorem digitVal_digitChar {d : ℕ} (h : d < 10) : digitVal (digitChar d) = d := by
  interval_cases d <;> rfl

theorem isDigitCh_digitChar {d : ℕ} (h : d < 10) : isDigitCh (digitChar d) = true := by
  interval_cases d <;> rfl

theorem digitChar_ne_comma {d : ℕ} (h : d < 10) : digitChar d ≠ ',' := by
  interval_cases d <;> decide

theorem decToNat_append (xs : Str) (c : Char) :
    decToNat (xs ++ [c]) = 10 * decToNat xs + digitVal c := by
  simp [decToNat, List.foldl_append]

theorem toDecFuel_spec :
    ∀ fuel n, n < 10 ^ (fuel + 1) →
      decToNat (toDecFuel (fuel + 1) n) = n ∧
      (toDecFuel (fuel + 1) n).all isDigitCh = true ∧
      toDecFuel (fuel + 1) n ≠ [] := by
  intro fuel
  induction fuel with
  | zero =>
    intro n hn
    have h10 : n < 10 := by simpa using hn
    refine ⟨?_, ?_, ?_⟩ <;>
      simp [toDecFuel, h10, decToNat, digitVal_digitChar h10, isDigitCh_digitChar h10]
  | succ fuel ih =>
    intro n hn
    by_cases h10 : n < 10
    · refine ⟨?_, ?_, ?_⟩ <;>
        simp [toDecFuel, h10, decToNat, digitVal_digitChar h10, isDigitCh_digitChar h10]
    · have hdiv : n / 10 < 10 ^ (fuel + 1) := by
        apply Nat.div_lt_of_lt_mul
        rw [pow_succ] at hn
        exact lt_of_lt_of_eq hn (mul_comm _ _)
      obtain ⟨ih1, ih2, ih3⟩ := ih (n / 10) hdiv
      have hmod : n % 10 < 10 := Nat.mod_lt _ (by norm_num)
      refine ⟨?_, ?_, ?_⟩
      · rw [show toDecFuel (fuel + 1 + 1) n
            = toDecFuel (fuel + 1) (n / 10) ++ [digitChar (n % 10)] by
              simp [toDecFuel, h10]]
        rw [decToNat_append, ih1, digitVal_digitChar hmod, Nat.div_add_mod]
      · rw [show toDecFuel (fuel + 1 + 1) n
            = toDecFuel (fuel + 1) (n / 10) ++ [digitChar (n % 10)] by
              simp [toDecFuel, h10]]
        simp only [List.all_append]
        simp [ih2, isDigitCh_digitChar hmod]
      · simp [toDecFuel, h10]

theorem n_lt_ten_pow (n : ℕ) : n < 10 ^ (n + 1) :=
  lt_of_lt_of_le (Nat.lt_pow_self (by norm_num) n)
    (Nat.pow_le_pow_right (by norm_num) (Nat.le_succ n))

theorem decToNat_toDec (n : ℕ) : decToNat (toDec n) = n :=
  (toDecFuel_spec n n (n_lt_ten_pow n)).1

theorem toDec_all_digits (n : ℕ) : (toDec n).all isDigitCh = true :=
  (toDecFuel_spec n n (n_lt_ten_pow n)).2.1

theorem toDec_ne_nil (n : ℕ) : toDec n ≠ [] :=
  (toDecFuel_spec n n (n_lt_ten_pow n)).2.2

theorem jsNumber_toDec (n : ℕ) : jsNumber (toDec n) = some n := by
  simp [jsNumber, toDec_all_digits n, decToNat_toDec n]

theorem comma_not_mem_toDec (n : ℕ) : ',' ∉ toDec n := by
  intro hmem
  have h := toDec_all_digits n
  rw [List.all_eq_true] at h
  have : isDigitCh ',' = true := h _ hmem
  simp [isDigitCh] at this

theorem splitOnComma_ne_nil (s : Str) : splitOnComma s ≠ [] := by
  cases s with
  | nil => simp [splitOnComma]
  | cons c rest =>
    simp only [splitOnComma]
    rcases h : splitOnComma rest with _ | ⟨p, ps⟩
    · simp
    · by_cases hc : c = ',' <;> simp [hc]

theorem split_no_comma {p : Str} (h : ',' ∉ p) : splitOnComma p = [p] := by
  induction p with
  | nil => rfl
  | cons c cs ih =>
    have hc : c ≠ ',' := fun hc => h (hc ▸ List.mem_cons_self c cs)
    have hcs : ',' ∉ cs := fun hm => h (List.mem_cons_of_mem c hm)
    simp only [splitOnComma, ih hcs]
    simp [fun hcc => hc hcc]

theorem split_comma_append {p : Str} (rest : Str) (h : ',' ∉ p) :
    splitOnComma (p ++ ',' :: rest) = p :: splitOnComma rest := by
  induction p with
  | nil =>
    simp only [List.nil_append, splitOnComma]
    rcases hs : splitOnComma rest with _ | ⟨q, qs⟩
    · exact absurd hs (splitOnComma_ne_nil rest)
    · simp
  | cons c cs ih =>
    have hc : c ≠ ',' := fun hc => h (hc ▸ List.mem_cons_self c cs)
    have hcs : ',' ∉ cs := fun hm => h (List.mem_cons_of_mem c hm)
    have step : splitOnComma ((c :: cs) ++ ',' :: rest)
        = match splitOnComma (cs ++ ',' :: rest) with
          | [] => [[c]]
          | p :: ps => if c = ',' then [] :: p :: ps else (c :: p) :: ps := by
      rw [List.cons_append, splitOnComma]
    rw [step, ih hcs]
    simp [fun hcc => hc hcc]

theorem joinComma_cons₂ (p q : Str) (ps : List Str) :
    joinComma (p :: q :: ps) = p ++ ',' :: joinComma (q :: ps) := rfl

theorem splitOnComma_joinComma :
    ∀ parts : List Str, parts ≠ [] → (∀ p ∈ parts, ',' ∉ p) →
      splitOnComma (joinComma parts) = parts := by
  intro parts
  induction parts with
  | nil => intro h; exact absurd rfl h
  | cons p ps ih =>
    intro _ hp
    cases ps with
    | nil => exact split_no_comma (hp p (List.mem_cons_self p []))
    | cons q qs =>
      rw [joinComma_cons₂, split_comma_append _ (hp p (List.mem_cons_self p _)),
        ih (by simp) fun r hr => hp r (List.mem_cons_of_mem p hr)]

/-! ## Helper lemmas: sorting and `normalizeItemIds` -/

theorem sortAsc_sorted (l : List ℕ) : (sortAsc l).Sorted (· ≤ ·) :=
  List.sorted_insertionSort _ l

theorem sortAsc_perm (l : List ℕ) : (sortAsc l).Perm l :=
  List.perm_insertionSort _ l

theorem sortAsc_eq_of_sorted {l : List ℕ} (h : l.Sorted (· ≤ ·)) : sortAsc l = l :=
  List.eq_of_perm_of_sorted (sortAsc_perm l) (sortAsc_sorted l) h

theorem keepPositive_toDec {n : ℕ} (h : 0 < n) : keepPositive (toDec n) = some n := by
  simp [keepPositive, jsNumber_toDec, h]

theorem filterMap_keepPositive_map_toDec (l : List ℕ) :
    (l.map toDec).filterMap keepPositive = l.filter fun n => decide (0 < n) := by
  induction l with
  | nil => rfl
  | cons n tl ih =>
    by_cases h : 0 < n
    · simp [List.filterMap_cons, keepPositive_toDec h, ih, List.filter_cons, h]
    · simp [List.filterMap_cons, keepPositive, jsNumber_toDec, h, ih, List.filter_cons]

theorem mem_filterMap_keepPositive_pos {s : Str} {n : ℕ}
    (h : n ∈ (splitOnComma s).filterMap keepPositive) : 0 < n := by
  rw [List.mem_filterMap] at h
  obtain ⟨piece, _, hk⟩ := h
  unfold keepPositive at hk
  rcases hj : jsNumber piece with _ | m <;> rw [hj] at hk
  · simp at hk
  · by_cases hm : 0 < m
    · simp [hm] at hk
      exact hk ▸ hm
    · simp [hm] at hk

theorem normalizeItemIds_idem (s : Str) :
    normalizeItemIds (normalizeItemIds s) = normalizeItemIds s := by
  unfold normalizeItemIds
  set kept := (splitOnComma s).filterMap keepPositive with hkept
  have hpos : ∀ n ∈ sortAsc kept, 0 < n := fun n hn =>
    mem_filterMap_keepPositive_pos (hkept ▸ (sortAsc_perm kept).subset hn)
  rcases hys : sortAsc kept with _ | ⟨y, ytl⟩
  · decide
  · have hysl : sortAsc kept = y :: ytl := hys
    rw [← hysl]
    have hnonnil : (sortAsc kept).map toDec ≠ [] := by
      rw [hysl]; simp
    have hnocomma : ∀ p ∈ (sortAsc kept).map toDec, ',' ∉ p := by
      intro p hp
      obtain ⟨n, _, rfl⟩ := List.mem_map.mp hp
      exact comma_not_mem_toDec n
    rw [splitOnComma_joinComma _ hnonnil hnocomma,
      filterMap_keepPositive_map_toDec]
    have hfilter : ((sortAsc kept).filter fun n => decide (0 < n)) = sortAsc kept :=
      List.filter_eq_self.mpr fun n hn => by simpa using hpos n hn
    rw [hfilter, sortAsc_eq_of_sorted (sortAsc_sorted kept)]

theorem normalizeItemIds_perm (l₁ l₂ : List ℕ) (hp : l₁.Perm l₂)
    (hpos : ∀ n ∈ l₁, 0 < n) :
    normalizeItemIds (joinComma (l₁.map toDec)) =
      normalizeItemIds (joinComma (l₂.map toDec)) := by
  clear hpos
  rcases l₁ with _ | ⟨a, tl⟩
  · rw [hp.nil_eq]
  · rcases l₂ with _ | ⟨b, tl₂⟩
    · exact absurd hp.symm.nil_eq (by simp)
    · unfold normalizeItemIds
      have hparse : ∀ (c : ℕ) (ctl : List ℕ),
          splitOnComma (joinComma ((c :: ctl).map toDec)) = (c :: ctl).map toDec := by
        intro c ctl
        refine splitOnComma_joinComma _ (by simp) ?_
        intro p hp'
        obtain ⟨n, _, rfl⟩ := List.mem_map.mp hp'
        exact comma_not_mem_toDec n
      rw [hparse, hparse, filterMap_keepPositive_map_toDec,
        filterMap_keepPositive_map_toDec]
      have hsorteq : sortAsc ((a :: tl).filter fun n => decide (0 < n))
          = sortAsc ((b :: tl₂).filter fun n => decide (0 < n)) := by
        refine List.eq_of_perm_of_sorted ?_ (sortAsc_sorted _) (sortAsc_sorted _)
        exact ((sortAsc_perm _).trans (hp.filter _)).trans (sortAsc_perm _).symm
      rw [hsorteq]

/-- C9: item-id cache-key normalization is idempotent —
`normalize(normalize(x)) = normalize(x)` for every input string — and
order-independent: two lists of positive item ids that are permutations
of one another render to inputs with the same normalization, so `3,1,2`
and `1,2,3` produce the same cache key. -/
theorem normalizeItemIds_idempotent_and_order_free :
    (∀ s : Str, normalizeItemIds (normalizeItemIds s) = normalizeItemIds s) ∧
    (∀ l₁ l₂ : List ℕ, l₁.Perm l₂ → (∀ n ∈ l₁, 0 < n) →
      normalizeItemIds (joinComma (l₁.map toDec)) =
        normalizeItemIds (joinComma (l₂.map toDec))) :=
  ⟨normalizeItemIds_idem, normalizeItemIds_perm⟩

/-- Witness for C9 at the spec's example: the id lists `3,1,2` and
`1,2,3` normalize to the same key, and normalization of `3,1,2` is
already normalized. -/
theorem normalizeItemIds_witness :
    normalizeItemIds ("3,1,2".data) = "1,2,3".data ∧
    normalizeItemIds (normalizeItemIds ("3,1,2".data)) = normalizeItemIds ("3,1,2".data) ∧
    normalizeItemIds (joinComma ([3, 1, 2].map toDec)) =
      normalizeItemIds (joinComma ([1, 2, 3].map toDec)) :=
  ⟨by decide,
   normalizeItemIds_idempotent_and_order_free.1 ("3,1,2".data),
   normalizeItemIds_idempotent_and_order_free.2 [3, 1, 2] [1, 2, 3] (by decide) (by decide)⟩

/-! ## Helper lemmas: rate limiter -/

theorem jsCeilDiv_eq_ceil (x : Int) : -((-x) / 1000) = ⌈(x : ℚ) / 1000⌉ := by
  have h1 : (⌈(x : ℚ) / 1000⌉ : ℤ) = -⌊-((x : ℚ) / 1000)⌋ := by
    rw [← Int.ceil_neg, neg_neg]
  rw [h1, show -((x : ℚ) / 1000) = ((-x : ℤ) : ℚ) / ((1000 : ℕ) : ℚ) by push_cast; ring,
    Rat.floor_intCast_div_natCast]
  norm_num

theorem lookupLedger_updateLedger (m : List (String × List Int)) (id : String)
    (ts : List Int) : lookupLedger (updateLedger m id ts) id = some ts := by
  induction m with
  | nil => simp [updateLedger, lookupLedger]
  | cons e rest ih =>
    by_cases h : e.1 = id
    · simp [updateLedger, h, lookupLedger]
    · simp [updateLedger, h, lookupLedger, ih]

theorem mem_updateLedger {m : List (String × List Int)} {id : String} {ts : List Int}
    {e : String × List Int} (h : e ∈ updateLedger m id ts) : e = (id, ts) ∨ e ∈ m := by
  induction m with
  | nil => simpa [updateLedger] using h
  | cons f rest ih =>
    by_cases hf : f.1 = id
    · rcases (by simpa [updateLedger, hf] using h : e = (id, ts) ∨ e ∈ rest) with h1 | h1
      · exact Or.inl h1
      · exact Or.inr (List.mem_cons_of_mem f h1)
    · rcases (by simpa [updateLedger, hf] using h : e = f ∨ e ∈ updateLedger rest id ts)
        with h1 | h1
      · exact Or.inr (h1 ▸ List.mem_cons_self f rest)
      · rcases ih h1 with h2 | h2
        · exact Or.inl h2
        · exact Or.inr (List.mem_cons_of_mem f h2)

theorem lookupLedger_mem {m : List (String × List Int)} {id : String} {l : List Int}
    (h : lookupLedger m id = some l) : (id, l) ∈ m := by
  induction m with
  | nil => simp [lookupLedger] at h
  | cons e rest ih =>
    by_cases he : e.1 = id
    · have : e.2 = l := by simpa [lookupLedger, he] using h
      have he2 : e = (id, l) := Prod.ext he this
      exact he2 ▸ List.mem_cons_self e rest
    · exact List.mem_cons_of_mem e (ih (by simpa [lookupLedger, he] using h))

theorem cleanup_ledger_bound {max : Int} {st : RateLimiterState}
    (h : ∀ e ∈ st.ipRequestLog, (e.2.length : Int) ≤ max)
    (w now : Int) : ∀ e ∈ (cleanup w now st).ipRequestLog, (e.2.length : Int) ≤ max := by
  intro e he
  simp only [cleanup, List.mem_filter, List.mem_map] at he
  obtain ⟨⟨f, hf, rfl⟩, -⟩ := he
  calc ((f.2.filter _).length : Int) ≤ (f.2.length : Int) := by
        exact_mod_cast List.length_filter_le _ _
    _ ≤ max := h f hf

theorem checkRateLimit_ledger_bound {config : RateLimitConfig} {st : RateLimiterState}
    (hm : 0 ≤ config.maxRequests)
    (h : ∀ e ∈ st.ipRequestLog, (e.2.length : Int) ≤ config.maxRequests)
    (id : String) (now : Int) :
    ∀ e ∈ (checkRateLimit id config now st).2.ipRequestLog,
      (e.2.length : Int) ≤ config.maxRequests := by
  intro e he
  unfold checkRateLimit at he
  set st1 := if CLEANUP_INTERVAL_MS < now - st.lastCleanup
    then cleanup config.windowSeconds now st else st with hst1
  have h1 : ∀ e ∈ st1.ipRequestLog, (e.2.length : Int) ≤ config.maxRequests := by
    rw [hst1]
    split
    · exact cleanup_ledger_bound h _ _
    · exact h
  set log := (lookupLedger st1.ipRequestLog id).getD [] with hlog
  have hlogle : (log.length : Int) ≤ config.maxRequests := by
    rw [hlog]
    rcases hl : lookupLedger st1.ipRequestLog id with _ | l
    · simpa using hm
    · simpa using h1 _ (lookupLedger_mem hl)
  have hfle : ((log.filter fun ts => decide (now - config.windowSeconds * 1000 < ts)).length
      : Int) ≤ (log.length : Int) := by
    exact_mod_cast List.length_filter_le _ _
  simp only at he
  split at he
  · rcases mem_updateLedger he with h2 | h2
    · rw [h2]
      exact le_trans hfle hlogle
    · exact h1 _ h2
  · rename_i hlt
    push_neg at hlt
    rcases mem_updateLedger he with h2 | h2
    · rw [h2]
      simp only [List.length_append, List.length_singleton]
      push_cast
      omega
    · exact h1 _ h2

theorem runCalls_ledger_bound {config : RateLimitConfig} (hm : 0 ≤ config.maxRequests)
    (calls : List (String × Int)) (st : RateLimiterState)
    (h : ∀ e ∈ st.ipRequestLog, (e.2.length : Int) ≤ config.maxRequests) :
    ∀ e ∈ (runCalls (calls.map fun c => (c.1, config, c.2)) st).ipRequestLog,
      (e.2.length : Int) ≤ config.maxRequests := by
  induction calls generalizing st with
  | nil => exact h
  | cons c rest ih =>
    exact ih _ (checkRateLimit_ledger_bound hm h c.1 c.2)

theorem checkRateLimit_post_mem {config : RateLimitConfig} (hw : 0 < config.windowSeconds)
    (id : String) (now : Int) (st : RateLimiterState) :
    ∀ ts ∈ (lookupLedger (checkRateLimit id config now st).2.ipRequestLog id).getD [],
      now - config.windowSeconds * 1000 < ts := by
  have hnow : now - config.windowSeconds * 1000 < now := by
    have : (0 : Int) < config.windowSeconds * 1000 := by positivity
    omega
  intro ts hts
  unfold checkRateLimit at hts
  simp only at hts
  split at hts <;> split at hts <;>
    rw [lookupLedger_updateLedger, Option.getD_some] at hts
  · simpa using List.of_mem_filter hts
  · rcases List.mem_append.mp hts with h1 | h1
    · simpa using List.of_mem_filter h1
    · rw [List.mem_singleton.mp h1]
      exact hnow
  · simpa using List.of_mem_filter hts
  · rcases List.mem_append.mp hts with h1 | h1
    · simpa using List.of_mem_filter h1
    · rw [List.mem_singleton.mp h1]
      exact hnow

/-- C6: for every `checkRateLimit(identifier, {maxRequests, window})`
call (with a policy admitting at least one request), write `filtered`
for the identifier's ledger after discarding the timestamps outside the
window.  If `maxRequests ≤ |filtered|` the request is denied with
`remaining = 0` and `resetIn = max 1 ⌈(oldest + windowMs − now) /
1000⌉` seconds (the oldest being the ledger's first entry), and the
stored ledger is `filtered`; otherwise `now` is appended and the
request is allowed with `remaining = maxRequests − (|filtered| + 1)` —
the count after the append — and `resetIn = window` seconds. -/
theorem checkRateLimit_decision (identifier : String) (config : RateLimitConfig)
    (now : Int) (st : RateLimiterState) (hmax : 1 ≤ config.maxRequests) :
    ∀ filtered, filtered =
      ((lookupLedger (if CLEANUP_INTERVAL_MS < now - st.lastCleanup
          then cleanup config.windowSeconds now st else st).ipRequestLog identifier).getD
        []).filter (fun ts => decide (now - config.windowSeconds * 1000 < ts)) →
    (config.maxRequests ≤ (filtered.length : Int) →
      filtered ≠ [] ∧
      (checkRateLimit identifier config now st).1 =
        ⟨false, 0, max 1 ⌈((filtered.headI + config.windowSeconds * 1000 - now : Int) : ℚ)
            / 1000⌉⟩ ∧
      lookupLedger (checkRateLimit identifier config now st).2.ipRequestLog identifier =
        some filtered) ∧
    ((filtered.length : Int) < config.maxRequests →
      (checkRateLimit identifier config now st).1 =
        ⟨true, config.maxRequests - ((filtered.length : Int) + 1), config.windowSeconds⟩ ∧
      lookupLedger (checkRateLimit identifier config now st).2.ipRequestLog identifier =
        some (filtered ++ [now])) := by
  intro filtered hf
  constructor
  · intro hlen
    have hne : filtered ≠ [] := by
      have h1 : 1 ≤ (filtered.length : Int) := le_trans hmax hlen
      have h2 : 1 ≤ filtered.length := by exact_mod_cast h1
      exact List.ne_nil_of_length_pos h2
    refine ⟨hne, ?_, ?_⟩
    · unfold checkRateLimit
      simp only [← hf]
      rw [if_pos hlen]
      rw [jsCeilDiv_eq_ceil]
    · unfold checkRateLimit
      simp only [← hf]
      rw [if_pos hlen]
      simp [lookupLedger_updateLedger]
  · intro hlen
    have hlen' : ¬ config.maxRequests ≤ (filtered.length : Int) := not_le.mpr hlen
    refine ⟨?_, ?_⟩
    · unfold checkRateLimit
      simp only [← hf]
      rw [if_neg hlen']
      simp only [List.length_append, List.length_singleton]
      push_cast
      ring_nf
    · unfold checkRateLimit
      simp only [← hf]
      rw [if_neg hlen']
      simp [lookupLedger_updateLedger]

/-- Witness for C6: with policy `(1, 60 s)` and ledger `[2000]` at
`now = 61000` ms, the call denies with `remaining = 0`, `resetIn = 1` —
`⌈(2000 + 60000 − 61000) / 1000⌉ = 1` — and the ledger kept at
`[2000]`. -/
theorem checkRateLimit_decision_witness :
    (checkRateLimit "ip" ⟨1, 60⟩ 61000 ⟨[("ip", [2000])], 61000⟩).1 =
      ⟨false, 0, 1⟩ ∧
    lookupLedger (checkRateLimit "ip" ⟨1, 60⟩ 61000
        ⟨[("ip", [2000])], 61000⟩).2.ipRequestLog "ip" = some [2000] := by
  have h := (checkRateLimit_decision "ip" ⟨1, 60⟩ 61000 ⟨[("ip", [2000])], 61000⟩
      (by norm_num) _ rfl).1 (by decide)
  rw [← jsCeilDiv_eq_ceil] at h
  refine ⟨?_, ?_⟩
  · rw [h.2.1]
    decide
  · rw [h.2.2]
    decide

/-- C7: after every `checkRateLimit` call for identifier `id` — whether
it admits or denies — every timestamp remaining in `id`'s ledger is
strictly above `now − window`, and the ledger holds at most
`maxRequests` entries.  The state is any state reachable by a sequence
of calls under the same (sane) policy from the fresh-isolate state. -/
theorem checkRateLimit_invariant (config : RateLimitConfig)
    (hw : 1 ≤ config.windowSeconds) (hm : 0 ≤ config.maxRequests)
    (calls : List (String × Int)) (lc0 : Int) (id : String) (now : Int) :
    ∀ ledger, ledger = (lookupLedger (checkRateLimit id config now
        (runCalls (calls.map fun c => (c.1, config, c.2)) ⟨[], lc0⟩)).2.ipRequestLog
        id).getD [] →
      (∀ ts ∈ ledger, now - config.windowSeconds * 1000 < ts) ∧
      (ledger.length : Int) ≤ config.maxRequests := by
  intro ledger hl
  subst hl
  constructor
  · exact checkRateLimit_post_mem (lt_of_lt_of_le one_pos hw) id now _
  · have hbound := runCalls_ledger_bound hm calls ⟨[], lc0⟩ (by simp)
    have hfinal := checkRateLimit_ledger_bound hm hbound id now
    rcases hlk : lookupLedger (checkRateLimit id config now
        (runCalls (calls.map fun c => (c.1, config, c.2)) ⟨[], lc0⟩)).2.ipRequestLog id
      with _ | l
    · rw [hlk]
      simpa using hm
    · rw [hlk]
      simpa using hfinal _ (lookupLedger_mem hlk)

/-- Witness for C7: two admitted calls for `"ip"` at 1000 ms and
2000 ms, then a third at `now = 3000` ms under the default `(60, 60 s)`
policy: the resulting ledger is `[1000, 2000, 3000]`, all entries are
within the window, and its length is at most 60. -/
theorem checkRateLimit_invariant_witness :
    (∀ ts ∈ (lookupLedger (checkRateLimit "ip" ⟨60, 60⟩ 3000
        (runCalls ([("ip", 1000), ("ip", 2000)].map fun c => (c.1, (⟨60, 60⟩ :
          RateLimitConfig), c.2)) ⟨[], 0⟩)).2.ipRequestLog "ip").getD [],
      3000 - 60 * 1000 < ts) ∧
    (((lookupLedger (checkRateLimit "ip" ⟨60, 60⟩ 3000
        (runCalls ([("ip", 1000), ("ip", 2000)].map fun c => (c.1, (⟨60, 60⟩ :
          RateLimitConfig), c.2)) ⟨[], 0⟩)).2.ipRequestLog "ip").getD []).length : Int)
      ≤ 60 ∧
    (lookupLedger (checkRateLimit "ip" ⟨60, 60⟩ 3000
        (runCalls ([("ip", 1000), ("ip", 2000)].map fun c => (c.1, (⟨60, 60⟩ :
          RateLimitConfig), c.2)) ⟨[], 0⟩)).2.ipRequestLog "ip").getD []
      = [1000, 2000, 3000] := by
  have h := checkRateLimit_invariant ⟨60, 60⟩ (by norm_num) (by norm_num)
    [("ip", 1000), ("ip", 2000)] 0 "ip" 3000 _ rfl
  exact ⟨h.1, h.2, by decide⟩

/-! ## Dual-tier cache: staleness classification (C4) and KV-hit writes (C5) -/

theorem rat_le_bridge {t d : Int} : ((d : ℚ) / 1000 ≤ (t : ℚ)) ↔ d ≤ t * 1000 := by
  rw [div_le_iff (by norm_num : (0 : ℚ) < 1000)]
  exact_mod_cast Iff.rfl

theorem rat_lt_bridge {t d : Int} : ((t : ℚ) < (d : ℚ) / 1000) ↔ t * 1000 < d := by
  rw [lt_div_iff (by norm_num : (0 : ℚ) < 1000)]
  exact_mod_cast Iff.rfl

/-- C4: for every stored entry in either cache tier, with age
`a = (now − cachedAt) / 1000` seconds, ttl `t` and SWR window `w`
(`w ≥ 0`): if `a ≤ t` the entry is returned with `stale = false`; if
`t < a ≤ t + w` it is returned with `stale = true`; and if `a > t + w`
the lookup misses and the entry's deletion from the tier that produced
it is enqueued — an entry older than `t + w` is never returned. -/
theorem cache_staleness_classification (store : CacheStore) (now : Int) (key : String)
    (e : CacheEntry) (hkey : lookupStore store key = some e)
    (a t w : ℚ) (ha : a = ((now - e.metadata.cachedAt : Int) : ℚ) / 1000)
    (ht : t = (e.metadata.ttl : ℚ)) (hw : w = (e.metadata.swrWindow : ℚ)) :
    (a ≤ t →
      getFromCacheApi store now key = (.hit e.value false, store) ∧
      getFromKv store now key = (.hit e.value false, store)) ∧
    (t < a → a ≤ t + w →
      getFromCacheApi store now key = (.hit e.value true, store) ∧
      getFromKv store now key = (.hit e.value true, store)) ∧
    (0 ≤ w → t + w < a →
      getFromCacheApi store now key = (.expiredRemoved, eraseStore store key) ∧
      getFromKv store now key = (.expiredRemoved, eraseStore store key)) := by
  subst ha ht hw
  refine ⟨?_, ?_, ?_⟩
  · intro h1
    rw [rat_le_bridge] at h1
    have hb1 : decide (e.metadata.ttl * 1000 < now - e.metadata.cachedAt) = false :=
      decide_eq_false (not_lt.mpr h1)
    constructor <;>
      simp [getFromCacheApi, getFromKv, hkey, classifyEntry, hb1]
  · intro h1 h2
    rw [rat_lt_bridge] at h1
    rw [show (e.metadata.ttl : ℚ) + (e.metadata.swrWindow : ℚ)
        = ((e.metadata.ttl + e.metadata.swrWindow : Int) : ℚ) by push_cast; ring,
      rat_le_bridge] at h2
    have hb1 : decide (e.metadata.ttl * 1000 < now - e.metadata.cachedAt) = true :=
      decide_eq_true h1
    have hb2 : decide (now - e.metadata.cachedAt
        ≤ (e.metadata.ttl + e.metadata.swrWindow) * 1000) = true := decide_eq_true h2
    constructor <;>
      · simp [getFromCacheApi, getFromKv, hkey, classifyEntry, hb1, hb2]
        omega
  · intro h0 h2
    rw [show (e.metadata.ttl : ℚ) + (e.metadata.swrWindow : ℚ)
        = ((e.metadata.ttl + e.metadata.swrWindow : Int) : ℚ) by push_cast; ring,
      rat_lt_bridge] at h2
    have h1 : e.metadata.ttl * 1000 < now - e.metadata.cachedAt := by
      have hw0 : (0 : Int) ≤ e.metadata.swrWindow := by exact_mod_cast h0
      nlinarith
    have hb1 : decide (e.metadata.ttl * 1000 < now - e.metadata.cachedAt) = true :=
      decide_eq_true h1
    have hb2 : decide (now - e.metadata.cachedAt
        ≤ (e.metadata.ttl + e.metadata.swrWindow) * 1000) = false :=
      decide_eq_false (not_le.mpr h2)
    constructor <;>
      · simp [getFromCacheApi, getFromKv, hkey, classifyEntry, hb1, hb2]
        omega

/-- Witness for C4 on the entry `cachedAt = 0, ttl = 300 s, swr =
120 s`: at 1000 ms (age 1 s) the lookup is a fresh hit; at 350000 ms
(age 350 s) a stale hit; at 500000 ms (age 500 s > 420 s) a miss with
the entry deleted. -/
theorem cache_staleness_witness :
    getFromKv [("k", ⟨"v", ⟨0, 300, 120⟩⟩)] 1000 "k"
      = (.hit "v" false, [("k", ⟨"v", ⟨0, 300, 120⟩⟩)]) ∧
    getFromCacheApi [("k", ⟨"v", ⟨0, 300, 120⟩⟩)] 350000 "k"
      = (.hit "v" true, [("k", ⟨"v", ⟨0, 300, 120⟩⟩)]) ∧
    getFromKv [("k", ⟨"v", ⟨0, 300, 120⟩⟩)] 500000 "k"
      = (.expiredRemoved, []) := by
  refine ⟨?_, ?_, ?_⟩
  · exact ((cache_staleness_classification [("k", ⟨"v", ⟨0, 300, 120⟩⟩)] 1000 "k"
      ⟨"v", ⟨0, 300, 120⟩⟩ (by decide) 1 300 120
      (by norm_num) (by norm_num) (by norm_num)).1 (by norm_num)).2
  · exact (((cache_staleness_classification [("k", ⟨"v", ⟨0, 300, 120⟩⟩)] 350000 "k"
      ⟨"v", ⟨0, 300, 120⟩⟩ (by decide) 350 300 120
      (by norm_num) (by norm_num) (by norm_num)).2.1 (by norm_num) (by norm_num)).1)
  · have h := (((cache_staleness_classification [("k", ⟨"v", ⟨0, 300, 120⟩⟩)] 500000 "k"
      ⟨"v", ⟨0, 300, 120⟩⟩ (by decide) 500 300 120
      (by norm_num) (by norm_num) (by norm_num)).2.2 (by norm_num) (by norm_num)).2)
    rw [h]
    decide

theorem lookupStore_updateStore (s : CacheStore) (k : String) (v : CacheEntry) :
    lookupStore (updateStore s k v) k = some v := by
  induction s with
  | nil => simp [updateStore, lookupStore]
  | cons e rest ih =>
    by_cases h : e.1 = k
    · simp [updateStore, h, lookupStore]
    · simp [updateStore, h, lookupStore, ih]

/-- C5 counterexample: a fresh KV hit with an edge miss (`cachedAt =
0, ttl = 300 s, swr = 120 s`, `now = 1000` ms).  `cachedFetch` answers
from KV, no revalidation is enqueued (the entry is fresh) — and yet the
KV entry is rewritten: its metadata changes from `(0, 300, 120)` to
`(1000, 300, 120)`.  The slow tier's stored triple is not left
unchanged by the hit, refuting the claim as stated. -/
theorem cachedFetch_kv_rewrite_cex :
    (cachedFetch ⟨[], [("k", ⟨"v", ⟨0, 300, 120⟩⟩)]⟩ 1000 "k" ⟨300, 300, 120⟩
        (Except.error .transport)).1 = .ok ⟨"v", .kv, false⟩ ∧
    (cachedFetch ⟨[], [("k", ⟨"v", ⟨0, 300, 120⟩⟩)]⟩ 1000 "k" ⟨300, 300, 120⟩
        (Except.error .transport)).2.1.kv = [("k", ⟨"v", ⟨1000, 300, 120⟩⟩)] ∧
    (cachedFetch ⟨[], [("k", ⟨"v", ⟨0, 300, 120⟩⟩)]⟩ 1000 "k" ⟨300, 300, 120⟩
        (Except.error .transport)).2.1.kv ≠ [("k", ⟨"v", ⟨0, 300, 120⟩⟩)] ∧
    (cachedFetch ⟨[], [("k", ⟨"v", ⟨0, 300, 120⟩⟩)]⟩ 1000 "k" ⟨300, 300, 120⟩
        (Except.error .transport)).2.2 = false := by
  refine ⟨rfl, rfl, ?_, rfl⟩
  decide

/-- C5 (amended): when the edge tier misses and the KV tier holds a
serveable entry, `cachedFetch` returns the entry from source `kv` and
asynchronously writes BOTH tiers via `storeToAll`: the edge tier gains
a copy of the payload and the slow tier's entry is rewritten with the
same payload and fresh metadata `(cachedAt = now, ttl = kvTtl, swr =
swrWindow)`; a revalidation is enqueued exactly when the entry was
stale. -/
theorem cachedFetch_kv_hit_writes_both (edge kv : CacheStore) (now : Int) (key : String)
    (config : CacheConfig) (upstream : Except UpstreamFailure Payload)
    (v : Payload) (stale : Bool)
    (hedge : (getFromCacheApi edge now key).1 = .absent ∨
      (getFromCacheApi edge now key).1 = .expiredRemoved)
    (hkv : getFromKv kv now key = (.hit v stale, kv)) :
    cachedFetch ⟨edge, kv⟩ now key config upstream =
      (.ok ⟨v, .kv, stale⟩,
       ⟨storeToCacheApi (getFromCacheApi edge now key).2 now key v config,
        storeToKv kv now key v config⟩,
       stale) ∧
    lookupStore (storeToKv kv now key v config) key
      = some ⟨v, ⟨now, config.kvTtl, config.swrWindow⟩⟩ ∧
    lookupStore (storeToCacheApi (getFromCacheApi edge now key).2 now key v config) key
      = some ⟨v, ⟨now, config.cacheTtl, config.swrWindow⟩⟩ := by
  refine ⟨?_, lookupStore_updateStore _ _ _, lookupStore_updateStore _ _ _⟩
  rcases hge : getFromCacheApi edge now key with ⟨r1, edge1⟩
  rw [hge] at hedge
  unfold cachedFetch
  rw [hge]
  rcases hedge with h | h <;>
    · simp only at h
      subst h
      rw [hkv]
      simp [storeToAll]

/-- Witness for C5 (amended) at the counterexample's input: the edge
copy and the KV rewrite both carry `cachedAt = 1000`. -/
theorem cachedFetch_kv_hit_writes_both_witness :
    cachedFetch ⟨[], [("k", ⟨"v", ⟨0, 300, 120⟩⟩)]⟩ 1000 "k" ⟨300, 300, 120⟩
        (Except.error .transport) =
      (.ok ⟨"v", .kv, false⟩,
       ⟨storeToCacheApi [] 1000 "k" "v" ⟨300, 300, 120⟩,
        storeToKv [("k", ⟨"v", ⟨0, 300, 120⟩⟩)] 1000 "k" "v" ⟨300, 300, 120⟩⟩,
       false) ∧
    lookupStore (storeToKv [("k", ⟨"v", ⟨0, 300, 120⟩⟩)] 1000 "k" "v" ⟨300, 300, 120⟩) "k"
      = some ⟨"v", ⟨1000, 300, 120⟩⟩ := by
  have h := cachedFetch_kv_hit_writes_both [] [("k", ⟨"v", ⟨0, 300, 120⟩⟩)] 1000 "k"
    ⟨300, 300, 120⟩ (Except.error .transport) "v" false (Or.inl (by decide)) (by decide)
  exact ⟨h.1, h.2.1⟩

/-! ## Coalescer: single-flight (C1), failure handling (C2), pruning (C3) -/

theorem lookupKey_updateKey (m : List (String × Nat)) (k : String) (v : Nat) :
    lookupKey (updateKey m k v) k = some v := by
  induction m with
  | nil => simp [updateKey, lookupKey]
  | cons e rest ih =>
    by_cases h : e.1 = k
    · simp [updateKey, h, lookupKey]
    · simp [updateKey, h, lookupKey, ih]

theorem lookupKey_updateKey_ne (m : List (String × Nat)) {k k' : String} (v : Nat)
    (h : k' ≠ k) : lookupKey (updateKey m k v) k' = lookupKey m k' := by
  have hkk : ¬ k = k' := fun hc => h hc.symm
  induction m with
  | nil => simp [updateKey, lookupKey, hkk]
  | cons e rest ih =>
    by_cases he : e.1 = k
    · simp [updateKey, he, lookupKey, hkk]
    · by_cases he' : e.1 = k'
      · simp [updateKey, he, lookupKey, he', h]
      · simp [updateKey, he, lookupKey, he', ih]

theorem lookupKey_eraseKey (m : List (String × Nat)) (k : String) :
    lookupKey (eraseKey m k) k = none := by
  induction m with
  | nil => simp [eraseKey, lookupKey]
  | cons e rest ih =>
    by_cases h : e.1 = k
    · simpa [eraseKey, h, lookupKey] using ih
    · simpa [eraseKey, h, lookupKey] using ih

theorem lookupKey_eraseKey_ne (m : List (String × Nat)) {k k' : String} (h : k' ≠ k) :
    lookupKey (eraseKey m k) k' = lookupKey m k' := by
  have hkk : ¬ k = k' := fun hc => h hc.symm
  induction m with
  | nil => simp [eraseKey, lookupKey]
  | cons e rest ih =>
    by_cases he : e.1 = k
    · simpa [eraseKey, List.filter_cons, he, hkk, lookupKey] using ih
    · by_cases he' : e.1 = k'
      · simp [eraseKey, List.filter_cons, he, lookupKey, he', h]
      · simpa [eraseKey, List.filter_cons, he, lookupKey, he'] using ih

theorem coalesce_attach (st : CoalescerState) (now : Int) (key : String) (pid : Nat)
    (h : lookupKey st.inFlight key = some pid) :
    (coalesce st now key).1.producerLog = st.producerLog ∧
    ((coalesce st now key).2.1).isAttached = true := by
  rcases hs : lookupPid st.settledAs pid with _ | out
  · simp [coalesce, h, hs, CallResult.isAttached]
  · cases out <;> simp [coalesce, h, hs, CallResult.isAttached]

/-- C1 counterexample: on a cold call, the synchronous region's action
trace is the producer invocation FIRST and the map insert second
(`const promise = fetchFn(); inFlightRequests.set(key, promise);`,
lines 58–59) — the in-flight entry is not inserted before the producer
is invoked, refuting the claim's stated order. -/
theorem coalesce_invoke_before_insert_cex :
    (coalesce initCoalescer 0 "k").2.2 =
      [.invokeProducer 0 "k", .mapSet "k" 0,
       .schedule 30000 (.safetyDelete "k")] ∧
    List.indexOf (CoalesceAction.invokeProducer 0 "k") (coalesce initCoalescer 0 "k").2.2
      < List.indexOf (CoalesceAction.mapSet "k" 0) (coalesce initCoalescer 0 "k").2.2 := by
  refine ⟨rfl, by decide⟩

/-- C1 (amended): a cold `coalesce` call invokes the producer and then
inserts the entry within one synchronous region — its whole action
trace is invocation, insert, safety-timer scheduling, with no
suspension point in between — so a second `coalesce` call for the same
key arriving any time after this region (the earliest moment another
task can run on the single-threaded event loop) finds the entry and
attaches to it instead of invoking the producer a second time. -/
theorem coalesce_single_flight (st : CoalescerState) (now : Int) (key : String)
    (h : lookupKey st.inFlight key = none) :
    (coalesce st now key).2.2 =
      [.invokeProducer st.nextPid key, .mapSet key st.nextPid,
       .schedule (now + MAX_IN_FLIGHT_TIME_MS) (.safetyDelete key)] ∧
    (coalesce st now key).2.1 = .startedProducer st.nextPid ∧
    lookupKey (coalesce st now key).1.inFlight key = some st.nextPid ∧
    (coalesce st now key).1.producerLog = st.producerLog ++ [(st.nextPid, key)] ∧
    ∀ now', (coalesce (coalesce st now key).1 now' key).1.producerLog
        = (coalesce st now key).1.producerLog ∧
      ((coalesce (coalesce st now key).1 now' key).2.1).isAttached = true := by
  have hbase : coalesce st now key =
      ({ st with
          inFlight := updateKey st.inFlight key st.nextPid
          producerLog := st.producerLog ++ [(st.nextPid, key)]
          timers := st.timers ++ [(now + MAX_IN_FLIGHT_TIME_MS, TimerKind.safetyDelete key)]
          nextPid := st.nextPid + 1 },
       .startedProducer st.nextPid,
       [.invokeProducer st.nextPid key, .mapSet key st.nextPid,
        .schedule (now + MAX_IN_FLIGHT_TIME_MS) (.safetyDelete key)]) := by
    unfold coalesce
    rw [h]
  refine ⟨by rw [hbase], by rw [hbase], ?_, by rw [hbase], ?_⟩
  · rw [hbase]
    exact lookupKey_updateKey _ _ _
  · intro now'
    have hl : lookupKey (coalesce st now key).1.inFlight key = some st.nextPid := by
      rw [hbase]
      exact lookupKey_updateKey _ _ _
    exact coalesce_attach _ now' key st.nextPid hl

/-- Witness for C1 (amended) at a cold call on the fresh isolate
state: the trace is invoke-then-insert-then-schedule, the entry is
present afterwards, and a second call at t = 5 attaches without
extending the producer log. -/
theorem coalesce_single_flight_witness :
    (coalesce initCoalescer 0 "k").2.2 =
      [.invokeProducer 0 "k", .mapSet "k" 0, .schedule 30000 (.safetyDelete "k")] ∧
    lookupKey (coalesce initCoalescer 0 "k").1.inFlight "k" = some 0 ∧
    (coalesce (coalesce initCoalescer 0 "k").1 5 "k").1.producerLog = [(0, "k")] ∧
    ((coalesce (coalesce initCoalescer 0 "k").1 5 "k").2.1).isAttached = true := by
  have h := coalesce_single_flight initCoalescer 0 "k" (by decide)
  refine ⟨by rw [h.1]; decide, by rw [h.2.2.1]; decide, ?_, (h.2.2.2.2 5).2⟩
  rw [(h.2.2.2.2 5).1, h.2.2.2.1]
  decide

/-- C2 counterexample: the producer for `"k"` starts at t = 0 and fails
at t = 50.  The in-flight entry is NOT removed immediately: it is still
present after the failure, its removal is scheduled by the same 100 ms
post-settlement cleanup as after a success (timer at t = 150), and a
second `coalesce` call at t = 60 receives the stored failure instead of
re-invoking the producer (the producer log still has the single
invocation). -/
theorem coalesce_failure_not_immediate_cex :
    lookupKey (settleProducer (coalesce initCoalescer 0 "k").1 50 "k" 0 .err).inFlight "k"
      = some 0 ∧
    (settleProducer (coalesce initCoalescer 0 "k").1 50 "k" 0 .err).timers
      = [(30000, .safetyDelete "k"), (150, .lingerDelete "k")] ∧
    (coalesce (settleProducer (coalesce initCoalescer 0 "k").1 50 "k" 0 .err) 60 "k").2.1
      = .attachedError 0 ∧
    (coalesce (settleProducer (coalesce initCoalescer 0 "k").1 50 "k" 0 .err)
      60 "k").1.producerLog = [(0, "k")] := by
  refine ⟨by decide, by decide, by decide, by decide⟩

/-- C2 (amended): a producer failure does not remove the in-flight
entry immediately — settlement schedules the deletion 100 ms later,
for success and failure alike.  While the failed entry is still
present, a `coalesce` call attaches to it, receives the stored failure
and removes the entry as it observes the error — the producer is not
re-invoked.  Once no entry is present (after that observation, or after
the delayed cleanup fires), a `coalesce` call re-invokes the
producer. -/
theorem coalesce_failure_retry (st : CoalescerState) (now tSettle : Int) (key : String)
    (pid : Nat) :
    (∀ out, (settleProducer st tSettle key pid out).timers
      = st.timers ++ [(tSettle + 100, TimerKind.lingerDelete key)]) ∧
    (lookupKey st.inFlight key = some pid → lookupPid st.settledAs pid = some .err →
      (coalesce st now key).2.1 = .attachedError pid ∧
      lookupKey (coalesce st now key).1.inFlight key = none ∧
      (coalesce st now key).1.producerLog = st.producerLog) ∧
    (lookupKey st.inFlight key = none →
      (coalesce st now key).2.1 = .startedProducer st.nextPid ∧
      (coalesce st now key).1.producerLog = st.producerLog ++ [(st.nextPid, key)]) := by
  refine ⟨fun out => rfl, ?_, ?_⟩
  · intro h1 h2
    refine ⟨?_, ?_, ?_⟩ <;> simp [coalesce, h1, h2, lookupKey_eraseKey]
  · intro h1
    constructor <;> simp [coalesce, h1]

/-- Witness for C2 (amended): the counterexample's scenario, driven
through the theorem — failure schedules the 100 ms cleanup, the
attaching call gets the stored failure and clears the entry, and a
fresh call re-invokes. -/
theorem coalesce_failure_retry_witness :
    (settleProducer (coalesce initCoalescer 0 "k").1 50 "k" 0 .err).timers
      = [(30000, .safetyDelete "k"), (150, .lingerDelete "k")] ∧
    (coalesce (settleProducer (coalesce initCoalescer 0 "k").1 50 "k" 0 .err) 60 "k").2.1
      = .attachedError 0 ∧
    lookupKey (coalesce (settleProducer (coalesce initCoalescer 0 "k").1 50 "k" 0 .err)
      60 "k").1.inFlight "k" = none ∧
    (coalesce initCoalescer 70 "k").2.1 = .startedProducer 0 := by
  have htimer := (coalesce_failure_retry (coalesce initCoalescer 0 "k").1 60 50 "k" 0).1
    Outcome.err
  have hattach := (coalesce_failure_retry
    (settleProducer (coalesce initCoalescer 0 "k").1 50 "k" 0 .err) 60 50 "k" 0).2.1
    (by decide) (by decide)
  have hfresh := (coalesce_failure_retry initCoalescer 70 50 "k" 0).2.2 (by decide)
  exact ⟨by rw [htimer]; decide, hattach.1, hattach.2.1, hfresh.1⟩

/-- C3 counterexample: the safety bound is `MAX_IN_FLIGHT_TIME_MS =
30000` ms (not ~60 s), there is no sweep interval and no jitter, and
pruning happens through standalone timers, not on entry to `coalesce`:
with a producer that never settles and no further `coalesce` call, the
safety timer scheduled at creation fires at t = 30000 and deletes the
still-unsettled entry. -/
theorem coalesce_timer_prune_cex :
    MAX_IN_FLIGHT_TIME_MS = 30000 ∧ MAX_IN_FLIGHT_TIME_MS ≠ 60000 ∧
    (coalesce initCoalescer 0 "k").1.timers = [(30000, .safetyDelete "k")] ∧
    lookupKey (coalesce initCoalescer 0 "k").1.inFlight "k" = some 0 ∧
    lookupPid (coalesce initCoalescer 0 "k").1.settledAs 0 = none ∧
    lookupKey (fireTimer (coalesce initCoalescer 0 "k").1 (.safetyDelete "k")).inFlight "k"
      = none := by
  refine ⟨by decide, by decide, by decide, by decide, by decide, by decide⟩

/-- C3 (amended): the in-flight map is pruned by per-entry timers
scheduled from inside `coalesce`, never by a sweep on entry: a cold
call schedules a safety deletion `MAX_IN_FLIGHT_TIME_MS` (30 s) ahead;
settlement schedules an unconditional deletion 100 ms ahead; a firing
safety timer removes its key regardless of whether the producer has
settled; and a `coalesce` call touches no other key's entry — there is
no sweep of the map on the way in. -/
theorem coalesce_prune_by_timers (st : CoalescerState) (now : Int) (key other : String)
    (hne : other ≠ key) :
    (lookupKey st.inFlight key = none →
      (coalesce st now key).1.timers
        = st.timers ++ [(now + MAX_IN_FLIGHT_TIME_MS, TimerKind.safetyDelete key)]) ∧
    (∀ pid out tSettle, (settleProducer st tSettle key pid out).timers
      = st.timers ++ [(tSettle + 100, TimerKind.lingerDelete key)]) ∧
    lookupKey (fireTimer st (.safetyDelete key)).inFlight key = none ∧
    lookupKey (coalesce st now key).1.inFlight other = lookupKey st.inFlight other := by
  refine ⟨?_, fun pid out tSettle => rfl, lookupKey_eraseKey _ _, ?_⟩
  · intro h1
    simp [coalesce, h1]
  · rcases hk : lookupKey st.inFlight key with _ | pid
    · simp [coalesce, hk, lookupKey_updateKey_ne _ _ hne]
    · rcases hs : lookupPid st.settledAs pid with _ | out
      · simp [coalesce, hk, hs]
      · cases out <;> simp [coalesce, hk, hs, lookupKey_eraseKey_ne _ hne]

/-- Witness for C3 (amended): concrete cold call for `"k"` with another
entry `"x"` in flight: the safety timer is scheduled at 30 s, firing it
deletes `"k"`, and the call leaves `"x"` untouched. -/
theorem coalesce_prune_by_timers_witness :
    (coalesce ⟨[("x", 7)], [], [], [(7, "x")], [], 8⟩ 0 "k").1.timers
      = [(30000, .safetyDelete "k")] ∧
    lookupKey (fireTimer (coalesce ⟨[("x", 7)], [], [], [(7, "x")], [], 8⟩ 0 "k").1
      (.safetyDelete "k")).inFlight "k" = none ∧
    lookupKey (coalesce ⟨[("x", 7)], [], [], [(7, "x")], [], 8⟩ 0 "k").1.inFlight "x"
      = some 7 := by
  have h := coalesce_prune_by_timers ⟨[("x", 7)], [], [], [(7, "x")], [], 8⟩ 0 "k" "x"
    (by decide)
  have hfire := coalesce_prune_by_timers (coalesce ⟨[("x", 7)], [], [], [(7, "x")], [], 8⟩
    0 "k").1 0 "k" "x" (by decide)
  refine ⟨by rw [h.1 (by decide)]; decide, hfire.2.2.1, by rw [h.2.2.2]; decide⟩

/-! ## The app: CORS on every response (C8), rate limiting only on the
aggregated route (C10) -/

theorem lookupHeader_setHeader (hs : List (Str × Str)) (name value : Str) :
    lookupHeader (setHeader hs name value) name = some value := by
  simp [setHeader, lookupHeader]

theorem lookupHeader_setHeader_ne (hs : List (Str × Str)) {name name' : Str}
    (value : Str) (h : name' ≠ name) :
    lookupHeader (setHeader hs name value) name' = lookupHeader hs name' := by
  have hnn : ¬ name = name' := fun hc => h hc.symm
  rw [setHeader, lookupHeader, if_neg hnn]
  induction hs with
  | nil => simp [lookupHeader]
  | cons e rest ih =>
    by_cases he : e.1 = name
    · rw [List.filter_cons_of_neg (by simpa using he), lookupHeader,
        if_neg (by rw [he]; exact hnn), ih]
    · by_cases he' : e.1 = name'
      · rw [List.filter_cons_of_pos (by simpa using he), lookupHeader, if_pos he',
          lookupHeader, if_pos he']
      · rw [List.filter_cons_of_pos (by simpa using he), lookupHeader, if_neg he',
          lookupHeader, if_neg he', ih]

theorem mem_setHeader {hs : List (Str × Str)} {name value : Str} {h : Str × Str}
    (hm : h ∈ setHeader hs name value) : h.1 = name ∨ h ∈ hs := by
  rw [setHeader, List.mem_cons] at hm
  rcases hm with rfl | hm
  · exact Or.inl rfl
  · exact Or.inr (List.mem_of_mem_filter hm)

/-- C8: every response the application produces — route successes, 4xx
and 5xx (including the responses built by the global error handler and
the not-found handler), and the OPTIONS preflight — carries an
`Access-Control-Allow-Origin` header, set to the request's `Origin`
when that origin is allowed (in production a member of the configured
allow-list; in development any `http://localhost:*` or
`http://127.0.0.1:*` origin), and otherwise to the first configured
allow-list entry. -/
theorem app_cors_on_every_response (i : AppInput) :
    lookupHeader (appFetch i).1.headers ("Access-Control-Allow-Origin".data)
      = some (if (if i.env.ENVIRONMENT = "development".data then
            startsWithL "http://localhost:".data (i.req.originHeader.getD []) ||
              startsWithL "http://127.0.0.1:".data (i.req.originHeader.getD [])
          else ((splitOnComma i.env.ALLOWED_ORIGINS).map trimStr).contains
            (i.req.originHeader.getD [])) = true
        then i.req.originHeader.getD []
        else ((splitOnComma i.env.ALLOWED_ORIGINS).map trimStr).headI) := by
  unfold appFetch
  split
  · rw [lookupHeader]
    simp [corsOrigin]
  · rcases innerDispatch i with ⟨r, callLog, rl1⟩
    simp only []
    rw [lookupHeader_setHeader_ne _ _ (by decide), lookupHeader_setHeader]
    simp [corsOrigin]

theorem buildCacheHeaders_names (source : CacheSource) (isStale : Bool)
    (config : CacheConfig) :
    ∀ hdr ∈ buildCacheHeaders source isStale config,
      startsWithL "X-RateLimit".data hdr.1 = false := by
  intro hdr hm
  unfold buildCacheHeaders at hm
  simp only [List.mem_cons, List.not_mem_nil, or_false] at hm
  rcases hm with rfl | rfl | rfl | rfl <;> rfl

theorem dataCentersHandler_clear (config : CacheConfig)
    (outcome : Except UpstreamFailure CacheResult) :
    (∀ hdr ∈ (dataCentersHandler config outcome).headers,
      startsWithL "X-RateLimit".data hdr.1 = false) ∧
    (dataCentersHandler config outcome).body ≠ BodyKind.rateLimitExceeded := by
  rcases outcome with err | res
  · rcases err with s | _
    · exact ⟨by intro hdr hm; simp [dataCentersHandler] at hm, by simp [dataCentersHandler]⟩
    · exact ⟨by intro hdr hm; simp [dataCentersHandler] at hm, by simp [dataCentersHandler]⟩
  · refine ⟨?_, by simp [dataCentersHandler]⟩
    intro hdr hm
    exact buildCacheHeaders_names res.source res.isStale config hdr
      (by simpa [dataCentersHandler] using hm)

theorem worldsHandler_clear (config : CacheConfig)
    (outcome : Except UpstreamFailure CacheResult) :
    (∀ hdr ∈ (worldsHandler config outcome).headers,
      startsWithL "X-RateLimit".data hdr.1 = false) ∧
    (worldsHandler config outcome).body ≠ BodyKind.rateLimitExceeded := by
  rcases outcome with err | res
  · rcases err with s | _
    · exact ⟨by intro hdr hm; simp [worldsHandler] at hm, by simp [worldsHandler]⟩
    · exact ⟨by intro hdr hm; simp [worldsHandler] at hm, by simp [worldsHandler]⟩
  · refine ⟨?_, by simp [worldsHandler]⟩
    intro hdr hm
    exact buildCacheHeaders_names res.source res.isStale config hdr
      (by simpa [worldsHandler] using hm)

theorem innerDispatch_static (i : AppInput)
    (h : i.req.path = RoutePath.dataCenters ∨ i.req.path = RoutePath.worlds) :
    (innerDispatch i).2.1 = [] ∧ (innerDispatch i).2.2 = i.rl ∧
    (∀ hdr ∈ (innerDispatch i).1.headers,
      startsWithL "X-RateLimit".data hdr.1 = false) ∧
    (innerDispatch i).1.body ≠ BodyKind.rateLimitExceeded := by
  unfold innerDispatch
  by_cases hc : i.crash = true
  · rw [if_pos hc]
    exact ⟨rfl, rfl, by intro hdr hm; simp at hm, by simp⟩
  · rw [if_neg hc]
    obtain hp | hp := h <;> rw [hp]
    · exact ⟨rfl, rfl, (dataCentersHandler_clear _ _).1, (dataCentersHandler_clear _ _).2⟩
    · exact ⟨rfl, rfl, (worldsHandler_clear _ _).1, (worldsHandler_clear _ _).2⟩

theorem aggregatedHandler_log (env : AppEnv) (req : AppRequest) (dc ids : Str)
    (now : Int) (rl : RateLimiterState) (validDc : Str → Bool) (config : CacheConfig)
    (outcome : Except UpstreamFailure CacheResult) :
    (aggregatedHandler env req dc ids now rl validDc config outcome).2.1
      = [String.mk (getClientIP req)] := by
  unfold aggregatedHandler
  simp only []
  repeat' split
  all_goals rfl

theorem appFetch_aggregated_log (j : AppInput) (dc ids : Str)
    (h1 : j.req.path = RoutePath.aggregated dc ids)
    (h2 : j.req.method ≠ HttpMethod.OPTIONS) (h3 : j.crash = false) :
    (appFetch j).2.1 = [String.mk (getClientIP j.req)] := by
  have hlog : (innerDispatch j).2.1 = [String.mk (getClientIP j.req)] := by
    unfold innerDispatch
    rw [if_neg (by rw [h3]; simp), h1]
    exact aggregatedHandler_log _ _ _ _ _ _ _ _ _
  unfold appFetch
  rw [if_neg h2]
  rcases hid : innerDispatch j with ⟨r, lg, rl1⟩
  rw [hid] at hlog
  exact hlog

/-- C10: only the `GET /api/v2/aggregated/...` handler invokes the rate
limiter.  A request routed to `/api/v2/data-centers` or
`/api/v2/worlds` never calls `checkRateLimit` (the call log is empty
and the limiter state is untouched), carries no `X-RateLimit-*`
response header, and its body is never the local
`Rate limit exceeded` payload — while a non-preflight request routed to
the aggregated handler always calls `checkRateLimit` with the client
identifier. -/
theorem rate_limiter_only_on_aggregated (i : AppInput)
    (h : i.req.path = RoutePath.dataCenters ∨ i.req.path = RoutePath.worlds) :
    (appFetch i).2.1 = [] ∧
    (appFetch i).2.2 = i.rl ∧
    (∀ hdr ∈ (appFetch i).1.headers, startsWithL "X-RateLimit".data hdr.1 = false) ∧
    (appFetch i).1.body ≠ BodyKind.rateLimitExceeded ∧
    (∀ (j : AppInput) (dc ids : Str), j.req.path = RoutePath.aggregated dc ids →
      j.req.method ≠ HttpMethod.OPTIONS → j.crash = false →
      (appFetch j).2.1 = [String.mk (getClientIP j.req)]) := by
  have hs := innerDispatch_static i h
  by_cases hm : i.req.method = HttpMethod.OPTIONS
  · unfold appFetch
    rw [if_pos hm]
    refine ⟨rfl, rfl, ?_, by simp, appFetch_aggregated_log⟩
    intro hdr hmem
    simp only [List.mem_cons, List.not_mem_nil, or_false] at hmem
    rcases hmem with rfl | rfl | rfl | rfl <;> rfl
  · unfold appFetch
    rw [if_neg hm]
    rcases hid : innerDispatch i with ⟨r, lg, rl1⟩
    rw [hid] at hs
    simp only at hs ⊢
    refine ⟨hs.1, hs.2.1, ?_, hs.2.2.2, appFetch_aggregated_log⟩
    intro hdr hmem
    rcases mem_setHeader hmem with h1 | hmem2
    · rw [h1]; rfl
    · rcases mem_setHeader hmem2 with h1 | hmem3
      · rw [h1]; rfl
      · exact hs.2.2.1 hdr hmem3

/-- Witness for C10: a GET to the data-centers route (with a successful
upstream-shaped outcome) makes no rate-limiter call, leaves the limiter
state alone, and returns the data body; the aggregated part of the
theorem is exercised by a GET to the aggregated route, which logs one
`checkRateLimit` call for the client IP. -/
theorem rate_limiter_only_on_aggregated_witness :
    (appFetch ⟨⟨"production".data, "https://a.example".data, "60".data, "60".data⟩,
      ⟨HttpMethod.GET, RoutePath.dataCenters, none, none, none⟩, 0, ⟨[], 0⟩,
      fun _ => true, ⟨300, 300, 120⟩, ⟨86400, 86400, 21600⟩, ⟨86400, 86400, 21600⟩,
      Except.error .transport, Except.ok ⟨"dcs", .upstream, false⟩,
      Except.error .transport, false⟩).2.1 = [] ∧
    (appFetch ⟨⟨"production".data, "https://a.example".data, "60".data, "60".data⟩,
      ⟨HttpMethod.GET, RoutePath.dataCenters, none, none, none⟩, 0, ⟨[], 0⟩,
      fun _ => true, ⟨300, 300, 120⟩, ⟨86400, 86400, 21600⟩, ⟨86400, 86400, 21600⟩,
      Except.error .transport, Except.ok ⟨"dcs", .upstream, false⟩,
      Except.error .transport, false⟩).2.2 = ⟨[], 0⟩ ∧
    (appFetch ⟨⟨"production".data, "https://a.example".data, "60".data, "60".data⟩,
      ⟨HttpMethod.GET, RoutePath.dataCenters, none, none, none⟩, 0, ⟨[], 0⟩,
      fun _ => true, ⟨300, 300, 120⟩, ⟨86400, 86400, 21600⟩, ⟨86400, 86400, 21600⟩,
      Except.error .transport, Except.ok ⟨"dcs", .upstream, false⟩,
      Except.error .transport, false⟩).1.body ≠ BodyKind.rateLimitExceeded ∧
    (appFetch ⟨⟨"production".data, "https://a.example".data, "60".data, "60".data⟩,
      ⟨HttpMethod.GET, RoutePath.aggregated "crystal".data "5808".data, none,
        some "1.2.3.4".data, none⟩, 0, ⟨[], 0⟩,
      fun _ => true, ⟨300, 300, 120⟩, ⟨86400, 86400, 21600⟩, ⟨86400, 86400, 21600⟩,
      Except.ok ⟨"agg", .upstream, false⟩, Except.error .transport,
      Except.error .transport, false⟩).2.1 = ["1.2.3.4"] := by
  have h := rate_limiter_only_on_aggregated
    ⟨⟨"production".data, "https://a.example".data, "60".data, "60".data⟩,
      ⟨HttpMethod.GET, RoutePath.dataCenters, none, none, none⟩, 0, ⟨[], 0⟩,
      fun _ => true, ⟨300, 300, 120⟩, ⟨86400, 86400, 21600⟩, ⟨86400, 86400, 21600⟩,
      Except.error .transport, Except.ok ⟨"dcs", .upstream, false⟩,
      Except.error .transport, false⟩ (Or.inl rfl)
  refine ⟨h.1, h.2.1, h.2.2.2.1, ?_⟩
  have ha := h.2.2.2.2
    ⟨⟨"production".data, "https://a.example".data, "60".data, "60".data⟩,
      ⟨HttpMethod.GET, RoutePath.aggregated "crystal".data "5808".data, none,
        some "1.2.3.4".data, none⟩, 0, ⟨[], 0⟩,
      fun _ => true, ⟨300, 300, 120⟩, ⟨86400, 86400, 21600⟩, ⟨86400, 86400, 21600⟩,
      Except.ok ⟨"agg", .upstream, false⟩, Except.error .transport,
      Except.error .transport, false⟩
    "crystal".data "5808".data rfl (by decide) rfl
  rw [ha]
  decide
